import Mathlib

/-!
# pstack: stack walker and DWARF byte reader

A shallow embedding of `ThreadStack::unwind`, `Process::findObject`,
`Process::dumpStackText` (src/process.cc) and of `DWARFReader`
(src/libpstack/dwarf.h), followed by the properties established about them.

Machine integers are natural numbers reduced modulo `2 ^ w` wherever the
C++ arithmetic is performed in a `w`-bit unsigned type.
-/

namespace Pstack

/-! ## Bytes and machine words -/

/-- One octet of target memory or of a section. -/
abbrev Byte := Fin 256

/-- Value of a byte string read as a little-endian unsigned integer (the way the
x86 host interprets an object it has read into an integer variable). -/
def leValue : List Byte → Nat
  | [] => 0
  | b :: bs => b.val + 256 * leValue bs

/-- The `n` low-order bytes of `v`, least significant first. -/
def leBytes : Nat → Nat → List Byte
  | 0, _ => []
  | n + 1, v => ⟨v % 256, Nat.mod_lt _ (by decide)⟩ :: leBytes n (v / 256)

/-- Reduction of a value to a `bits`-wide unsigned word. -/
def wrap (bits : Nat) (x : Nat) : Nat := x % 2 ^ bits

/-- Unsigned `bits`-wide subtraction `a - b`. -/
def wsub (bits : Nat) (a b : Nat) : Nat := (a % 2 ^ bits + 2 ^ bits - b % 2 ^ bits) % 2 ^ bits

/-! ## The byte reader consumed by the engine -/

/-- Modelled from the spec: the `Reader` interface (its header is not among the
sources). `read off len` stands for `read(offset, len, buf) → bytes_read`: `none`
when the call throws, otherwise the bytes it stored into `buf`; their count is the
value returned. `size` is `size()`. -/
structure Reader where
  read : Nat → Nat → Option (List Byte)
  size : Nat

/-- Modelled from the spec: `read_obj(offset, &out)` (`Reader::readObj`, not among
the sources) reads an object of `n` bytes and throws unless all of them arrive. -/
def Reader.readObj (r : Reader) (off n : Nat) : Option (List Byte) :=
  match r.read off n with
  | some bs => if bs.length = n then some bs else none
  | none => none

/-- A reader over an in-memory byte string. -/
def Reader.ofBytes (data : List Byte) : Reader where
  read := fun off len => some ((data.drop off).take len)
  size := data.length

/-! ## Build configuration -/

/-- The preprocessor configuration of the build: `__amd64__`, `__i386__`, or neither
(a 64-bit target without the x86 fall-backs). -/
inductive Arch where
  | amd64
  | i386
  | other
deriving DecidableEq, Repr

/-- Source: `sizeof (Elf::Addr)`, which is also `sizeof frame->ip`. -/
def Arch.addrBytes : Arch → Nat
  | .amd64 => 8
  | .i386 => 4
  | .other => 8

/-- Source: `ELF_BITS`. -/
def Arch.bits (a : Arch) : Nat := 8 * a.addrBytes

/-- The build: architecture plus the two register numbers `IPREG` and `SPREG` that
`libpstack/dwarf/archreg.h` (not among the sources) defines for it. -/
structure Build where
  arch : Arch
  IPREG : Nat
  SPREG : Nat

/-- Source: `static size_t gMaxFrames = 1024;` -/
def gMaxFrames : Nat := 1024

/-! ## Stack frames -/

/-- The part of a `Dwarf::CIE` the walker and the printer look at. -/
structure CIE where
  isSignalHandler : Bool
deriving DecidableEq, Repr

/-- Modelled from the spec: `Dwarf::StackFrame` (declared in a header that is not
among the sources), with the members process.cc uses. "Register file. Fixed-size
indexed array keyed by the architecture's DWARF register numbering." -/
structure StackFrame where
  ip : Nat
  cfa : Nat
  regs : Nat → Nat
  cie : Option CIE

/-- Source: `new Dwarf::StackFrame()`. -/
def StackFrame.new : StackFrame where
  ip := 0
  cfa := 0
  regs := fun _ => 0
  cie := none

/-- Source: `StackFrame::getReg`. -/
def StackFrame.getReg (f : StackFrame) (r : Nat) : Nat := f.regs r

/-- Source: `StackFrame::setReg`. -/
def StackFrame.setReg (f : StackFrame) (r : Nat) (v : Nat) : StackFrame :=
  { f with regs := fun k => if k = r then v else f.regs k }

/-- The machine context handed to the walker (`Elf::CoreRegisters`), presented by
DWARF register number; the `REGMAP` table of archreg.h fixes the correspondence. -/
abbrev CoreRegisters := Nat → Nat

/-- Source: `StackFrame::setCoreRegs`. -/
def StackFrame.setCoreRegs (f : StackFrame) (regs : CoreRegisters) : StackFrame :=
  { f with regs := regs }

/-- Result of `StackFrame::unwind(p)`: it throws, returns a null pointer, or returns
a newly allocated caller frame. -/
inductive StepResult where
  | threw
  | null
  | frame (f : StackFrame)

/-! ## Loaded objects -/

/-- Source: `Elf::Phdr` of type `PT_LOAD`. -/
structure Phdr where
  p_vaddr : Nat
  p_memsz : Nat
deriving DecidableEq, Repr

/-- Source: `Elf::Sym`. -/
structure Sym where
  st_value : Nat
  st_size : Nat
deriving DecidableEq, Repr

/-- Source: `Dwarf::ARange`; both members are `uintmax_t`. -/
structure ARange where
  start : Nat
  length : Nat
deriving DecidableEq, Repr

/-- Source: `Dwarf::ARangeSet`, with the members `dumpStackText` reads. -/
structure ARangeSet where
  debugInfoOffset : Nat
  ranges : List ARange
deriving DecidableEq, Repr

/-- The members of a function `Dwarf::DIE` that `dumpStackText` prints: `name()`,
the `DW_AT_low_pc` attribute if present, and the text `ArgPrint` writes for it. -/
structure DIE where
  name : String
  low_pc : Option Nat
  argText : String
deriving DecidableEq, Repr

/-- Source: `Dwarf::Unit`: each element of `entries` is one top-level entry, given as the
function `fun addr => Dwarf::findEntryForFunc(addr, entry)` (declared in dwarf.h,
defined outside the sources). -/
structure DwarfUnit where
  offset : Nat
  entries : List (Nat → Option DIE)

/-- Source: `Dwarf::Info`, with the operations `dumpStackText` calls. `hasRanges()` is
`ranges().size() != 0`. -/
structure Info where
  ranges : List ARangeSet
  getUnit : Nat → DwarfUnit
  getUnits : List DwarfUnit
  sourceFromAddr : Nat → List (String × Nat)

/-- Source: `Dwarf::Info::hasRanges`. -/
def Info.hasRanges (d : Info) : Bool := !d.ranges.isEmpty

/-- Source: `Elf::Object` as process.cc consumes it: `name` is `stringify(*obj->io)`,
`loadSegments` is `getSegments(PT_LOAD)`, `findSymbolByName` yields the symbol when
the call returns true, `findSymbolByAddress addr` yields the contents of the two
out-parameters `sym` and `name` after the call with type `STT_FUNC` (the name is
empty when nothing is found), and `dwarf` is what `getDwarf` returns for it. -/
structure ElfObject where
  name : String
  loadSegments : List Phdr
  findSymbolByName : String → Option Sym
  findSymbolByAddress : Nat → Sym × String
  dwarf : Info

/-- Source: `Process::LoadedObject`. -/
structure LoadedObject where
  loadAddr : Nat
  object : ElfObject

/-- Source: `Process`, with the members the walker and the printer use. `unwindStep` is
`StackFrame::unwind(p)` (defined outside the sources); its result for a frame is
taken to depend on the frame contents and the process only. -/
structure Process where
  io : Reader
  objects : List LoadedObject
  unwindStep : StackFrame → StepResult

/-- The inner loop of `Process::findObject` over the `PT_LOAD` headers of one
candidate: does some segment contain `objAddr`? The upper bound is computed in the
word-sized unsigned type. -/
def segmentHit (bits : Nat) (objAddr : Nat) : List Phdr → Bool
  | [] => false
  | phdr :: rest =>
    if objAddr ≥ phdr.p_vaddr ∧ objAddr < wrap bits (phdr.p_vaddr + phdr.p_memsz) then true
    else segmentHit bits objAddr rest

/-- The outer loop of `Process::findObject`. The second component is the content
of `*loadAddr` on return. -/
def findObjectIn (bits : Nat) (addr : Nat) (loadAddr : Nat) :
    List LoadedObject → Option ElfObject × Nat
  | [] => (none, loadAddr)
  | candidate :: rest =>
    if segmentHit bits (wsub bits addr candidate.loadAddr) candidate.object.loadSegments then
      (some candidate.object, candidate.loadAddr)
    else findObjectIn bits addr loadAddr rest

/-- Source: `Process::findObject(addr, &loadAddr)`. -/
def Process.findObject (b : Build) (p : Process) (addr : Nat) (loadAddr : Nat) :
    Option ElfObject × Nat :=
  findObjectIn b.arch.bits addr loadAddr p.objects

/-! ## The i386 signal-trampoline table -/

/-- Indices into `gregset_t` from the i386 `<sys/ucontext.h>` of the C library. -/
def REG_GS : Nat := 0
def REG_FS : Nat := 1
def REG_ES : Nat := 2
def REG_DS : Nat := 3
def REG_EDI : Nat := 4
def REG_ESI : Nat := 5
def REG_EBP : Nat := 6
def REG_ESP : Nat := 7
def REG_EBX : Nat := 8
def REG_EDX : Nat := 9
def REG_ECX : Nat := 10
def REG_EAX : Nat := 11
def REG_TRAPNO : Nat := 12
def REG_ERR : Nat := 13
def REG_EIP : Nat := 14
def REG_CS : Nat := 15
def REG_EFL : Nat := 16
def REG_UESP : Nat := 17
def REG_SS : Nat := 18

/-- Source: `NGREG` of the i386 `<sys/ucontext.h>`: the number of `greg_t` (4-byte) slots
of a `gregset_t`. -/
def NGREG : Nat := 19

/-- The table `gregmap` of `ThreadStack::unwind`: pairs (DWARF register, slot). -/
def gregmap : List (Nat × Nat) :=
  [ (1, REG_EAX), (2, REG_ECX), (3, REG_EBX), (4, REG_ESP), (5, REG_EBP),
    (6, REG_ESI), (7, REG_EDI), (8, REG_EIP), (9, REG_EFL), (10, REG_CS),
    (11, REG_SS), (12, REG_DS), (13, REG_ES), (14, REG_FS) ]

/-- Slot `g` of a `gregset_t` whose object representation is `bs`, as a 32-bit word. -/
def greg (bs : List Byte) (g : Nat) : Nat := leValue ((bs.drop (4 * g)).take 4)

/-! ## `ThreadStack::unwind` -/

/-- How the inner `catch` block of `ThreadStack::unwind` is left: by `continue`
with a new `frame`, by running off its end with `frame` assigned, or by an exception
(`throw;`, or a read inside the handler that throws). -/
inductive Handled where
  | continue_ (frame : StackFrame)
  | fallThrough (frame : StackFrame)
  | rethrow

/-- The first-frame branch of the handler: copy the frame, read `sizeof frame->ip`
bytes at the stack pointer into `frame->ip`; on a full read bump the stack pointer
and `continue`. The result is `none` when the read throws; otherwise it is the
outcome of the test `in == sizeof frame->ip` together with `frame`, which after a
short read has only its low `in` bytes of `ip` overwritten. -/
def popReturnAddress (b : Build) (p : Process) (prevFrame : StackFrame) :
    Option (Bool × StackFrame) :=
  let sp := prevFrame.getReg b.SPREG
  match p.io.read sp b.arch.addrBytes with
  | none => none
  | some got =>
    let stored := got.take b.arch.addrBytes
    let frame : StackFrame :=
      { prevFrame with
        ip := leValue (stored ++ (leBytes b.arch.addrBytes prevFrame.ip).drop stored.length) }
    if got.length = b.arch.addrBytes then
      some (true, frame.setReg b.SPREG (wrap b.arch.bits (sp + b.arch.addrBytes)))
    else
      some (false, frame)

/-- Does `findSymbolByName(name, symbol) && objip == symbol.st_value` hold? -/
def symbolAt (obj : ElfObject) (name : String) (objip : Nat) : Bool :=
  match obj.findSymbolByName name with
  | some symbol => decide (objip = symbol.st_value)
  | none => false

/-- The `__i386__` branch of the handler: signal-trampoline recovery. -/
def trampoline (b : Build) (p : Process) (prevFrame : StackFrame) : Handled :=
  match p.findObject b prevFrame.ip 0 with
  | (none, _) => .rethrow
  | (some obj, reloc) =>
    let objip := wsub 32 prevFrame.ip reloc
    let sigContextAddr : Option Nat :=
      if symbolAt obj "__restore" objip then
        some (wrap 32 (prevFrame.getReg b.SPREG + 4))
      else if symbolAt obj "__restore_rt" objip then
        match p.io.readObj (wrap 32 (prevFrame.getReg b.SPREG + 8)) 4 with
        | some w => some (wrap 32 (leValue w + 20))
        | none => none
      else none
    match sigContextAddr with
    | none => .rethrow
    | some addr =>
      match p.io.readObj addr (4 * NGREG) with
      | none => .rethrow
      | some regs =>
        let frame := gregmap.foldl (fun f reg => f.setReg reg.1 (greg regs reg.2)) prevFrame
        .continue_ { frame with ip := greg regs REG_EIP }

/-- The inner `catch (const std::exception &)` block. `isStart` is the test
`prevFrame == startFrame`. In the amd64 build the `else` of the first-frame test
governs the final `throw;`; in the i386 build it governs the trampoline block, which
is followed by `throw;`; in any other build only `throw;` remains. -/
def catchHandler (b : Build) (p : Process) (isStart : Bool) (prevFrame : StackFrame) :
    Handled :=
  match b.arch with
  | .other => .rethrow
  | .amd64 =>
    if isStart then
      match popReturnAddress b p prevFrame with
      | none => .rethrow
      | some (true, frame) => .continue_ frame
      | some (false, frame) => .fallThrough frame
    else .rethrow
  | .i386 =>
    if isStart then
      match popReturnAddress b p prevFrame with
      | none => .rethrow
      | some (true, frame) => .continue_ frame
      | some (false, _) => .rethrow
    else
      match trampoline b p prevFrame with
      | .continue_ frame => .continue_ frame
      | .fallThrough _ => .rethrow
      | .rethrow => .rethrow

/-- What `ThreadStack::unwind` leaves behind: the frame list `stack`, the number of
calls of `StackFrame::unwind` it made, and whether the outer `catch` was entered
(the warning was printed). -/
structure Walk where
  stack : List StackFrame
  unwindCalls : Nat
  warned : Bool

/-- The `for` loop of `ThreadStack::unwind`. The first argument is
`gMaxFrames - frameCount`, the number of iterations the loop condition still admits.
`prevFrame == startFrame` holds exactly in the iteration with `frameCount == 0`:
every later `prevFrame` is an object allocated after `startFrame`. -/
def unwindLoop (b : Build) (p : Process) : Nat → Nat → StackFrame → Walk → Walk
  | 0, _, _, w => w
  | n + 1, frameCount, prevFrame, w =>
    let w : Walk := { w with stack := w.stack ++ [prevFrame], unwindCalls := w.unwindCalls + 1 }
    match p.unwindStep prevFrame with
    | .frame frame => unwindLoop b p n (frameCount + 1) frame w
    | .null => w
    | .threw =>
      match catchHandler b p (frameCount == 0) prevFrame with
      | .continue_ frame => unwindLoop b p n (frameCount + 1) frame w
      | .fallThrough frame => unwindLoop b p n (frameCount + 1) frame w
      | .rethrow => { w with warned := true }

/-- Source: `std::vector::clear` on the frame list. -/
def clear (_ : List StackFrame) : List StackFrame := []

/-- The first frame: `setCoreRegs(regs)` on a new frame, then
`ip = getReg(IPREG)`. -/
def startFrame (b : Build) (regs : CoreRegisters) : StackFrame :=
  let prevFrame := StackFrame.new.setCoreRegs regs
  { prevFrame with ip := prevFrame.getReg b.IPREG }

/-- Source: `ThreadStack::unwind(p, regs)`; `stack` is the content of the member `stack`
on entry, which `stack.clear()` discards. -/
def ThreadStack.unwind (b : Build) (p : Process) (regs : CoreRegisters)
    (stack : List StackFrame) : Walk :=
  unwindLoop b p gMaxFrames 0 (startFrame b regs) ⟨clear stack, 0, false⟩

/-- The value of `frame` with which the loop goes round again after the iteration
on `prevFrame`, if it does. -/
def nextFrame (b : Build) (p : Process) (isStart : Bool) (prevFrame : StackFrame) :
    Option StackFrame :=
  match p.unwindStep prevFrame with
  | .frame frame => some frame
  | .null => none
  | .threw =>
    match catchHandler b p isStart prevFrame with
    | .continue_ frame => some frame
    | .fallThrough frame => some frame
    | .rethrow => none

/-- The frame `prevFrame` holds `k` iterations after the one with counter
`frameCount` and frame `f`. -/
def frameFrom (b : Build) (p : Process) : Nat → Nat → StackFrame → Option StackFrame
  | 0, _, f => some f
  | k + 1, frameCount, f =>
    match nextFrame b p (frameCount == 0) f with
    | some g => frameFrom b p k (frameCount + 1) g
    | none => none

/-- Frame `k` of the walk from `regs`: the frame on which iteration `k` of the loop
operates, when the loop gets that far. -/
def frameAt (b : Build) (p : Process) (regs : CoreRegisters) (k : Nat) : Option StackFrame :=
  if k < gMaxFrames then frameFrom b p k 0 (startFrame b regs) else none

/-- The frames the loop appends when started with `n` admissible iterations, counter
`frameCount` and frame `f`. -/
def walkFrames (b : Build) (p : Process) : Nat → Nat → StackFrame → List StackFrame
  | 0, _, _ => []
  | n + 1, frameCount, f =>
    f :: (match nextFrame b p (frameCount == 0) f with
          | some g => walkFrames b p n (frameCount + 1) g
          | none => [])

/-! ## `Process::dumpStackText` -/

/-- Source: `PstackOptions`, with the two options `dumpStackText` consults. -/
structure PstackOptions where
  nosrc : Bool
  doargs : Bool
deriving DecidableEq, Repr

/-- One item written to the output stream: a piece of text or a number (whose
digits depend on the stream flags in force). -/
inductive Piece where
  | text (s : String)
  | num (n : Nat)
deriving DecidableEq, Repr

/-- What `dumpStackText` does for one frame: the items written to `os`, in order,
and the arguments with which `Dwarf::Info::sourceFromAddr` was called. -/
structure FrameText where
  out : List Piece
  sourceAddrs : List Nat
deriving DecidableEq, Repr

/-- The inner loop over `rangeset.ranges`: is there a range with
`objIp >= range.start && objIp <= range.start + range.length`? The sum is a
`uintmax_t`. -/
def rangeHit (objIp : Nat) : List ARange → Bool
  | [] => false
  | range :: rest =>
    if objIp ≥ range.start ∧ objIp ≤ wrap 64 (range.start + range.length) then true
    else rangeHit objIp rest

/-- The loop over `dwarf->ranges()` that collects the candidate units. -/
def unitsForRanges (dwarf : Info) (objIp : Nat) : List ARangeSet → List DwarfUnit
  | [] => []
  | rangeset :: rest =>
    if rangeHit objIp rangeset.ranges then
      dwarf.getUnit rangeset.debugInfoOffset :: unitsForRanges dwarf objIp rest
    else unitsForRanges dwarf objIp rest

/-- The loop over `u->entries`: the first entry for which `findEntryForFunc` finds a
DIE. -/
def entryForFunc (objIp : Nat) : List (Nat → Option DIE) → Option DIE
  | [] => none
  | it :: rest =>
    match it objIp with
    | some de => some de
    | none => entryForFunc objIp rest

/-- The loop over the candidate units: the DIE found in the first unit that has
one (after which `dwarfUnit` is set and both loops are left). -/
def functionDIE (objIp : Nat) : List DwarfUnit → Option DIE
  | [] => none
  | u :: rest =>
    match entryForFunc objIp u.entries with
    | some de => some de
    | none => functionDIE objIp rest

/-- The text `sigmsg` of a frame. -/
def sigmsg (frame : StackFrame) : String :=
  match frame.cie with
  | some cie => if cie.isSignalHandler then "[signal handler called]" else ""
  | none => ""

/-- The body of the loop of `Process::dumpStackText` for one frame. `verbose` is the
global of that name. -/
def Process.dumpFrame (b : Build) (p : Process) (options : PstackOptions) (verbose : Int)
    (frameNo : Nat) (frame : StackFrame) : FrameText :=
  let header : List Piece :=
    [.text "#", .num frameNo, .text " ", .text "0x", .num frame.ip]
      ++ (if verbose > 0 then [.text "/", .num frame.cfa] else []) ++ [.text " "]
  match p.findObject b frame.ip 0 with
  | (none, _) => ⟨header ++ [.text "no information for frame", .text "\n"], []⟩
  | (some obj, loadAddr) =>
    let fileName := obj.name
    let objIp := wsub b.arch.bits frame.ip loadAddr
    let dwarf := obj.dwarf
    let units :=
      if dwarf.hasRanges then unitsForRanges dwarf objIp dwarf.ranges else dwarf.getUnits
    let sigmsg := sigmsg frame
    let body : List Piece :=
      match functionDIE objIp units with
      | some de =>
        let symName :=
          if de.name = "" then
            let symName := (obj.findSymbolByAddress objIp).2
            if symName ≠ "" then symName ++ "%"
            else if sigmsg = "" then "<unknown>"
            else symName
          else de.name
        [.text "in ", .text symName, .text sigmsg]
          ++ (match de.low_pc with
              | some lowpc => [.text "+", .num (wsub 64 objIp lowpc)]
              | none => [])
          ++ [.text "("] ++ (if options.doargs then [.text de.argText] else []) ++ [.text ")"]
      | none =>
        let sym := (obj.findSymbolByAddress objIp).1
        let symName := (obj.findSymbolByAddress objIp).2
        if symName ≠ "" ∨ sigmsg ≠ "" then
          [.text "in ", .text symName, .text sigmsg, .text "!+",
            .num (wsub b.arch.bits objIp sym.st_value), .text "()"]
        else
          [.text "in <unknown>", .text sigmsg, .text "()"]
    let lookup : List Nat := if !options.nosrc then [wsub b.arch.bits objIp 1] else []
    let source : List Piece :=
      lookup.flatMap (fun addr =>
        (dwarf.sourceFromAddr addr).flatMap (fun ent =>
          [.text " at ", .text ent.1, .text ":", .num ent.2]))
    ⟨header ++ body ++ [.text " at ", .text fileName] ++ source ++ [.text "\n"], lookup⟩

/-- The frame loop of `Process::dumpStackText` over the frame list of a thread. -/
def Process.dumpStackText (b : Build) (p : Process) (options : PstackOptions) (verbose : Int) :
    Nat → List StackFrame → List FrameText
  | _, [] => []
  | frameNo, frame :: rest =>
    p.dumpFrame b options verbose frameNo frame
      :: Process.dumpStackText b p options verbose (frameNo + 1) rest

/-- The source lookup of `operator<<(JSON<Dwarf::StackFrame *, Process *>)`: the
arguments with which `sourceFromAddr` is called. `sysent` is `proc->sysent`. -/
def jsonSourceAddrs (b : Build) (p : Process) (sysent : Nat) (frame : StackFrame) : List Nat :=
  if frame.ip = sysent then []
  else
    match p.findObject b frame.ip 0 with
    | (none, _) => []
    | (some _, loadAddr) =>
      let objIp := wsub b.arch.bits frame.ip loadAddr
      [wsub b.arch.bits objIp 1]

/-! ## `DWARFReader` -/

/-- The exceptions of the byte cursor: an incomplete read reported by the underlying
reader, `can't deal with ints of size len`, and an LEB128 sequence that is too long. -/
inductive Exn where
  | incompleteRead
  | intSize (len : Int)
  | leb128
deriving DecidableEq, Repr

/-- Source: `Dwarf::DWARFReader`. `arch` is the build the reader belongs to, which fixes
`ELF_BITS`, the width of `Elf::Off` and of `size_t`; `end_` is the member `end`. The
member `off` is an `Elf::Off`, hence below `2 ^ ELF_BITS`. -/
structure DWARFReader where
  arch : Arch
  off : Nat
  end_ : Nat
  io : Reader
  addrLen : Nat
  off_lt : off < 2 ^ arch.bits

/-- Source: `ELF_BITS` of the build of the reader. -/
def DWARFReader.bits (r : DWARFReader) : Nat := r.arch.bits

/-- The constructor `DWARFReader(io, off, end)`; `none` for `end` is the default
argument `std::numeric_limits<size_t>::max()`. -/
def DWARFReader.new (arch : Arch) (io : Reader) (off : Nat) (end_ : Option Nat) :
    DWARFReader where
  arch := arch
  off := off % 2 ^ arch.bits
  end_ := match end_ with
    | none => io.size
    | some e => if e = 2 ^ arch.bits - 1 then io.size else e
  io := io
  addrLen := arch.bits / 8
  off_lt := Nat.mod_lt _ (Nat.two_pow_pos _)

/-- Source: `off += n` on the `Elf::Off` member. -/
def DWARFReader.advance (r : DWARFReader) (n : Nat) : DWARFReader :=
  { r with off := (r.off + n) % 2 ^ r.arch.bits, off_lt := Nat.mod_lt _ (Nat.two_pow_pos _) }

/-- Source: `off += len` for an `int` operand, which is converted to `Elf::Off` first. -/
def DWARFReader.advanceInt (r : DWARFReader) (len : Int) : DWARFReader :=
  r.advance (len % 2 ^ r.arch.bits).toNat

/-- Conversion of an `int` value to `uint32_t`. -/
def toUInt32 (i : Int) : Nat := (i % 2 ^ 32).toNat

/-- The `int` (32-bit two's complement) that holds the result of an `int`
computation whose mathematical value is `i`. -/
def toInt32 (i : Int) : Int := (i + 2 ^ 31) % 2 ^ 32 - 2 ^ 31

/-- Source: `DWARFReader::getu32`. The operands of `|` and `<<` are promoted to `int`;
`q[3] << 24` is converted to `uint32_t` before the last `|`. -/
def DWARFReader.getu32 (r : DWARFReader) : Except Exn (Nat × DWARFReader) :=
  match r.io.readObj r.off 4 with
  | none => .error .incompleteRead
  | some q =>
    let q0 := (q.getD 0 0).val
    let q1 := (q.getD 1 0).val
    let q2 := (q.getD 2 0).val
    let q3 := (q.getD 3 0).val
    .ok (wrap 32 (q0 ||| q1 <<< 8 ||| q2 <<< 16 ||| toUInt32 (toInt32 (q3 <<< 24 : Nat))),
      r.advance 4)

/-- Source: `DWARFReader::getu16`. -/
def DWARFReader.getu16 (r : DWARFReader) : Except Exn (Nat × DWARFReader) :=
  match r.io.readObj r.off 2 with
  | none => .error .incompleteRead
  | some q =>
    let q0 := (q.getD 0 0).val
    let q1 := (q.getD 1 0).val
    .ok (wrap 16 (q0 ||| q1 <<< 8), r.advance 2)

/-- Source: `DWARFReader::getu8`. -/
def DWARFReader.getu8 (r : DWARFReader) : Except Exn (Nat × DWARFReader) :=
  match r.io.readObj r.off 1 with
  | none => .error .incompleteRead
  | some q => .ok ((q.getD 0 0).val, r.advance 1)

/-- The value of an `int8_t` whose object representation is the byte `q`. -/
def toInt8 (q : Nat) : Int := if q % 256 < 128 then (q % 256 : Nat) else (q % 256 : Nat) - 256

/-- Source: `DWARFReader::gets8`. -/
def DWARFReader.gets8 (r : DWARFReader) : Except Exn (Int × DWARFReader) :=
  match r.io.readObj r.off 1 with
  | none => .error .incompleteRead
  | some q => .ok (toInt8 (q.getD 0 0).val, r.advance 1)

/-- The loop `for (i = 1; i <= len; i++) rc = rc << 8 | p[-i];` of `getuint`, with
`p = bytes + len` and `rc` a `uintmax_t`; the list holds the values `i - 1` still to
be done. -/
def getuintLoop (bytes : List Byte) (len : Nat) : List Nat → Nat → Nat
  | [], rc => rc
  | k :: rest, rc =>
    getuintLoop bytes len rest (wrap 64 (rc <<< 8) ||| (bytes.getD (len - (k + 1)) 0).val)

/-- Source: `DWARFReader::getuint`. The count passed to `readObj` is `len` converted to
`size_t`. -/
def DWARFReader.getuint (r : DWARFReader) (len : Int) : Except Exn (Nat × DWARFReader) :=
  if len > 16 then .error (.intSize len)
  else
    match r.io.readObj r.off (len % 2 ^ r.bits).toNat with
    | none => .error .incompleteRead
    | some bytes =>
      .ok (getuintLoop bytes len.toNat (List.range len.toNat) 0, r.advanceInt len)

/-- Modelled from the spec: `DWARFReader::getuleb128shift`, which dwarf.h declares
and a file outside the sources defines. "Read 7-bit groups with continuation bit";
"reading a ULEB128 that occupies exactly 16 bytes is accepted; 17 bytes fails". The
first argument counts the bytes still admitted. The result is the accumulated
`uintmax_t`, the shift reached (7 per group), and whether "the high bit of the last
group is set" (bit 0x40 of the last byte). -/
def getuleb128shiftLoop : Nat → DWARFReader → Nat → Nat →
    Except Exn ((Nat × Nat × Bool) × DWARFReader)
  | 0, _, _, _ => .error .leb128
  | n + 1, r, result, shift =>
    match r.getu8 with
    | .error e => .error e
    | .ok (byte, r1) =>
      let result := result ||| wrap 64 ((byte &&& 0x7f) <<< shift)
      if byte &&& 0x80 = 0 then .ok ((result, shift + 7, decide (byte &&& 0x40 ≠ 0)), r1)
      else getuleb128shiftLoop n r1 result (shift + 7)

/-- Modelled from the spec: `DWARFReader::getuleb128shift(&shift, isSigned)`; see
`getuleb128shiftLoop`. -/
def DWARFReader.getuleb128shift (r : DWARFReader) :
    Except Exn ((Nat × Nat × Bool) × DWARFReader) :=
  getuleb128shiftLoop 16 r 0 0

/-- Source: `DWARFReader::getuleb128`. -/
def DWARFReader.getuleb128 (r : DWARFReader) : Except Exn (Nat × DWARFReader) :=
  match r.getuleb128shift with
  | .error e => .error e
  | .ok ((result, _, _), r1) => .ok (result, r1)

/-- Conversion of a `uintmax_t` to `intmax_t`. -/
def toIntMax (u : Nat) : Int := if u % 2 ^ 64 < 2 ^ 63 then (u % 2 ^ 64 : Nat) else (u % 2 ^ 64 : Nat) - 2 ^ 64

/-- Source: `DWARFReader::getsleb128`: `result |= - ((uintmax_t)1 << shift)` when `isSigned`. -/
def DWARFReader.getsleb128 (r : DWARFReader) : Except Exn (Int × DWARFReader) :=
  match r.getuleb128shift with
  | .error e => .error e
  | .ok ((result, shift, isSigned), r1) =>
    if isSigned then
      .ok (toIntMax (result ||| wrap 64 (2 ^ 64 - wrap 64 (1 <<< shift))), r1)
    else .ok (toIntMax result, r1)

/-- The unsigned value that the 7-bit groups of an LEB128 byte string accumulate to:
group `i` (the low seven bits of byte `i`) is weighted by `2 ^ (7 * i)`. -/
def lebValue : List Byte → Nat
  | [] => 0
  | b :: bs => b.val % 128 + 128 * lebValue bs

/-! ## Sample builds and processes -/

/-- The x86-64 build: DWARF register 16 is `rip`, 7 is `rsp`. -/
def amd64Build : Build := ⟨.amd64, 16, 7⟩

/-- The i386 build: DWARF register 8 is `eip`, 4 is `esp`. -/
def i386Build : Build := ⟨.i386, 8, 4⟩

/-- A register file with the given instruction and stack pointers, zero elsewhere. -/
def regsWith (b : Build) (ip sp : Nat) : CoreRegisters :=
  fun r => if r = b.IPREG then ip else if r = b.SPREG then sp else 0

/-- Target memory holding `data` from address `base` on and nothing elsewhere; a read
returns the bytes available. -/
def memoryAt (base : Nat) (data : List Byte) : Reader where
  read := fun off len => if base ≤ off then some ((data.drop (off - base)).take len) else some []
  size := base + data.length

/-- A sample unwind step: the function at 0x1000 was called from 0x2000, the one at
0x3000 from 0x4000; the frames at 0x2000 and 0x401234 have no caller; for any other
address (among them 0 and 0x4000) unwinding throws. -/
def sampleStep (f : StackFrame) : StepResult :=
  if f.ip = 0x1000 then .frame { f with ip := 0x2000 }
  else if f.ip = 0x3000 then .frame { f with ip := 0x4000 }
  else if f.ip = 0x2000 ∨ f.ip = 0x401234 then .null
  else .threw

/-- A process with the sample unwind step, no loaded objects, and a stack at
0x7ffc0000 whose top word is 0x401234. -/
def sampleProcess : Process where
  io := memoryAt 0x7ffc0000 [0x34, 0x12, 0x40, 0, 0, 0, 0, 0]
  objects := []
  unwindStep := sampleStep

/-- A process with the sample unwind step whose memory cannot be read: every read
returns zero bytes. -/
def unreadableProcess : Process where
  io := Reader.ofBytes []
  objects := []
  unwindStep := sampleStep

/-- Memory of a process stopped in a signal handler with stack pointer 0x8000. The
word at 0x8008 is 0x80ec, so that `*(sp+8)+20` is 0x8100. The general-register set
at 0x8100 has 0xbb in its `REG_EIP` slot (address 0x8138); the 76 bytes at `sp+4`
have 0xaa at the same slot (address 0x803c). Every other byte is zero. -/
def signalByte (a : Nat) : Byte :=
  if a = 0x8008 then 0xec
  else if a = 0x8009 then 0x80
  else if a = 0x803c then 0xaa
  else if a = 0x8138 then 0xbb
  else 0

/-- The reader over the memory `signalByte`; every read is complete. -/
def signalMemory : Reader where
  read := fun off len => some ((List.range len).map (fun i => signalByte (off + i)))
  size := 2 ^ 32

/-- A C library mapped at 0 with one segment [0x1000, 0x2000) and the given values
for the symbols `__restore` and `__restore_rt`. -/
def libcObject (restore restore_rt : Option Nat) : ElfObject where
  name := "libc.so.6"
  loadSegments := [⟨0x1000, 0x1000⟩]
  findSymbolByName := fun name =>
    if name = "__restore" then restore.map (fun v => ⟨v, 0⟩)
    else if name = "__restore_rt" then restore_rt.map (fun v => ⟨v, 0⟩)
    else none
  findSymbolByAddress := fun _ => (⟨0, 0⟩, "")
  dwarf := ⟨[], fun off => ⟨off, []⟩, [], fun _ => []⟩

/-- An unwind step for which the frame at 0x5000 was called from 0x1500 and every
other frame fails to unwind. -/
def signalStep (f : StackFrame) : StepResult :=
  if f.ip = 0x5000 then .frame { f with ip := 0x1500 } else .threw

/-- A process in a signal handler whose C library has the given trampoline symbols. -/
def signalProcess (restore restore_rt : Option Nat) : Process where
  io := signalMemory
  objects := [⟨0, libcObject restore restore_rt⟩]
  unwindStep := signalStep

/-- A frame at 0x1500 whose CIE is flagged as a signal handler. -/
def signalFrame : StackFrame where
  ip := 0x1500
  cfa := 0
  regs := fun _ => 0
  cie := some ⟨true⟩

/-- A frame with a CIE flagged as a signal handler whose `ip` 0x9000 lies in no
loaded object. -/
def strayFrame : StackFrame where
  ip := 0x9000
  cfa := 0
  regs := fun _ => 0
  cie := some ⟨true⟩

/-! ## `DWARFReader`: signed reads, strings and cursor movement -/

/-- Source: `DWARFReader::getint`. The `intmax_t` accumulator `rc` is carried as its
64-bit two's-complement bit pattern (`-1` is `2 ^ 64 - 1`), on which
`rc = rc << 8 | p[-i]` acts as in `getuintLoop`; the result is converted back to the
signed value. -/
def DWARFReader.getint (r : DWARFReader) (len : Int) : Except Exn (Int × DWARFReader) :=
  if len > 16 ∨ len < 1 then .error (.intSize len)
  else
    match r.io.readObj r.off (len % 2 ^ r.bits).toNat with
    | none => .error .incompleteRead
    | some bytes =>
      let rc : Nat := if (bytes.getD (len.toNat - 1) 0).val &&& 0x80 ≠ 0 then 2 ^ 64 - 1 else 0
      .ok (toIntMax (getuintLoop bytes len.toNat (List.range len.toNat) rc), r.advanceInt len)

/-- Modelled from the spec: the loop of `Reader::readString` (`read_string(offset) →
string`, not among the sources): "copy until NUL". Bytes are fetched one at a time;
the first argument bounds the number of bytes by what the source holds from the
starting offset on. A byte that cannot be read, or a source that ends before a NUL,
makes the call throw (`none`). -/
def readStringLoop (io : Reader) : Nat → Nat → Option (List Byte)
  | 0, _ => none
  | n + 1, off =>
    match io.readObj off 1 with
    | none => none
    | some q =>
      if (q.getD 0 0).val = 0 then some []
      else
        match readStringLoop io n (off + 1) with
        | some s => some (q.getD 0 0 :: s)
        | none => none

/-- Modelled from the spec: `Reader::readString(offset)`; see `readStringLoop`. -/
def Reader.readString (io : Reader) (off : Nat) : Option (List Byte) :=
  readStringLoop io (io.size - off) off

/-- Source: `DWARFReader::getstring`: `s = io->readString(off); off += s.size() + 1;`. -/
def DWARFReader.getstring (r : DWARFReader) : Except Exn (List Byte × DWARFReader) :=
  match r.io.readString r.off with
  | none => .error .incompleteRead
  | some s => .ok (s, r.advance (s.length + 1))

/-- Source: `DWARFReader::getOffset`. -/
def DWARFReader.getOffset (r : DWARFReader) : Nat := r.off

/-- Source: `DWARFReader::getLimit`. -/
def DWARFReader.getLimit (r : DWARFReader) : Nat := r.end_

/-- Source: `DWARFReader::setOffset`: `assert(end >= off_); off = off_;`. The result is
`none` when the assertion fails. The argument is an `Elf::Off`. -/
def DWARFReader.setOffset (r : DWARFReader) (off_ : Nat) : Option DWARFReader :=
  if r.end_ ≥ off_ % 2 ^ r.arch.bits then
    some { r with off := off_ % 2 ^ r.arch.bits, off_lt := Nat.mod_lt _ (Nat.two_pow_pos _) }
  else none

/-- Source: `DWARFReader::empty`. -/
def DWARFReader.empty (r : DWARFReader) : Bool := r.off == r.end_

/-- Source: `DWARFReader::skip`: `off += amount;`. -/
def DWARFReader.skip (r : DWARFReader) (amount : Nat) : DWARFReader := r.advance amount

/-- The cursor a caller holds after a call of a reading member: the advanced one when
the call returns, the one it had when the call throws (in each of these members every
statement that can throw precedes the assignment to `off`). -/
def DWARFReader.after {α : Type} (r : DWARFReader) (res : Except Exn (α × DWARFReader)) :
    DWARFReader :=
  match res with
  | .ok (_, r1) => r1
  | .error _ => r

/-- A byte source that hands out no byte at or beyond its `size()`. -/
def Reader.InBounds (io : Reader) : Prop :=
  ∀ off len bs, io.read off len = some bs → bs = [] ∨ off + bs.length ≤ io.size


/-- The outcome `res` of a reading member called on the cursor `r` consumes `n` bytes:
when the call returns, the new offset is `off + n` as an `Elf::Off` (the plain sum
when that fits the type), limit and source are untouched and the caller holds the
new cursor; when it throws, the caller holds the cursor unchanged. -/
def DWARFReader.Consumes {α : Type} (r : DWARFReader) (res : Except Exn (α × DWARFReader))
    (n : Nat) : Prop :=
  (∀ v r1, res = .ok (v, r1) →
    r1.off = (r.off + n) % 2 ^ r.bits ∧ (r.off + n < 2 ^ r.bits → r1.off = r.off + n)
    ∧ r1.end_ = r.end_ ∧ r1.io = r.io ∧ r.after res = r1)
  ∧ (∀ e, res = .error e → r.after res = r)

/-- A cursor at offset 0 over the bytes `01 02 .. 08` with the explicit limit 2. -/
def limitedReader : DWARFReader :=
  DWARFReader.new .amd64 (Reader.ofBytes [1, 2, 3, 4, 5, 6, 7, 8]) 0 (some 2)

/-- A cursor at offset 0 over the three bytes `01 02 03`, with the default limit. -/
def shortReader : DWARFReader :=
  DWARFReader.new .amd64 (Reader.ofBytes [1, 2, 3]) 0 none

/-- A cursor at offset 0 over the bytes of "ab", NUL, NUL, "cd", NUL. -/
def stringReader : DWARFReader :=
  DWARFReader.new .amd64 (Reader.ofBytes [0x61, 0x62, 0, 0, 0x63, 0x64, 0]) 0 none


/-! ## Reference definitions for the lookups -/

/-- Does the loaded object have a `PT_LOAD` segment with
`p_vaddr <= addr - loadAddr < p_vaddr + p_memsz`, in `bits`-wide unsigned arithmetic? -/
def hasSegmentAt (bits addr : Nat) (c : LoadedObject) : Bool :=
  c.object.loadSegments.any (fun phdr =>
    decide (phdr.p_vaddr ≤ wsub bits addr c.loadAddr
      ∧ wsub bits addr c.loadAddr < wrap bits (phdr.p_vaddr + phdr.p_memsz)))

/-- The containing-object lookup as the specification words it: the first object in
load order that has such a segment, together with its load address; null, with
`*loadAddr` left as it was, when there is none. -/
def findObjectRef (bits addr loadAddr : Nat) (objects : List LoadedObject) :
    Option ElfObject × Nat :=
  match objects.find? (hasSegmentAt bits addr) with
  | some c => (some c.object, c.loadAddr)
  | none => (none, loadAddr)

/-- Does some range of the set satisfy `start <= objIp <= start + length` (the sum
being a `uintmax_t`)? -/
def rangeSetSelects (objIp : Nat) (rangeset : ARangeSet) : Bool :=
  rangeset.ranges.any (fun range =>
    decide (range.start ≤ objIp ∧ objIp ≤ wrap 64 (range.start + range.length)))

/-- Address-range tables of a two-unit image: the first set covers [0x1000, 0x1040)
and [0x3000, 0x3010), the second covers [0x2000, 0x2100). -/
def sampleRanges : List ARangeSet :=
  [⟨0, [⟨0x1000, 0x40⟩, ⟨0x3000, 0x10⟩]⟩, ⟨0x80, [⟨0x2000, 0x100⟩]⟩]

/-- Debug information with the sample range tables; the unit at an offset has no
entries. -/
def sampleInfo : Info where
  ranges := sampleRanges
  getUnit := fun off => ⟨off, []⟩
  getUnits := []
  sourceFromAddr := fun _ => []

/-! ## `Process::findSymbolByName` -/

/-- Source: `std::string::rfind(c)`: the index of the last occurrence of `c`, if there
is one. -/
def rfind (c : Char) : List Char → Option Nat
  | [] => none
  | x :: xs =>
    match rfind c xs with
    | some i => some (i + 1)
    | none => if x = c then some 0 else none

/-- The name test at the head of the loop body of `Process::findSymbolByName`, for a
non-null `objName`; `false` stands for `continue`. -/
def objectNameMatches (objName : String) (loaded : LoadedObject) : Bool :=
  let objname := loaded.object.name
  if objname ≠ objName then
    let objname :=
      match rfind '/' objname.data with
      | some p => String.mk (objname.data.drop (p + 1))
      | none => objname
    if objname ≠ objName then false else true
  else true

/-- The loop of `Process::findSymbolByName` over `objects`; `none` is the exception
"symbol not found" thrown after the loop. The sum is an `Elf::Addr`. -/
def findSymbolIn (bits : Nat) (objName : Option String) (symbolName : String) :
    List LoadedObject → Option Nat
  | [] => none
  | loaded :: rest =>
    if objName.isSome ∧ objectNameMatches (objName.getD "") loaded = false then
      findSymbolIn bits objName symbolName rest
    else
      match loaded.object.findSymbolByName symbolName with
      | some sym => some (wrap bits (sym.st_value + loaded.loadAddr))
      | none => if objName.isSome then none else findSymbolIn bits objName symbolName rest

/-- Source: `Process::findSymbolByName(objName, symbolName)`; `isStatic` is the member of
that name, and a null `objName` is `none`. -/
def Process.findSymbolByName (b : Build) (p : Process) (isStatic : Bool)
    (objName : Option String) (symbolName : String) : Option Nat :=
  findSymbolIn b.arch.bits (if isStatic then none else objName) symbolName p.objects

/-- The text after the last occurrence of `c`; the whole text when `c` does not
occur. -/
def afterLast (c : Char) : List Char → List Char
  | [] => []
  | x :: xs => if c ∈ xs then afterLast c xs else if x = c then xs else x :: xs

/-- The basename of a path: the text after the last `/`. -/
def basename (path : String) : String := String.mk (afterLast '/' path.data)

/-- The reference definition of the symbol lookup. For a static process or a null
object name: the value plus load address for the first object in load order that
defines the symbol. Otherwise only the first object in load order whose printed path
or whose basename equals the object name is considered. -/
def findSymbolByNameRef (bits : Nat) (objects : List LoadedObject) (isStatic : Bool)
    (objName : Option String) (symbolName : String) : Option Nat :=
  match isStatic, objName with
  | false, some name =>
    match objects.find? (fun lo => decide (lo.object.name = name ∨ basename lo.object.name = name)) with
    | some lo =>
      (lo.object.findSymbolByName symbolName).map (fun sym => wrap bits (sym.st_value + lo.loadAddr))
    | none => none
  | _, _ =>
    objects.findSome? (fun lo =>
      (lo.object.findSymbolByName symbolName).map (fun sym => wrap bits (sym.st_value + lo.loadAddr)))

/-- An object with the given printed path that defines the one symbol `sym` with the
given value, if any. -/
def namedObject (path : String) (sym : Option Nat) : ElfObject where
  name := path
  loadSegments := []
  findSymbolByName := fun name => if name = "sym" then sym.map (fun v => ⟨v, 0⟩) else none
  findSymbolByAddress := fun _ => (⟨0, 0⟩, "")
  dwarf := ⟨[], fun off => ⟨off, []⟩, [], fun _ => []⟩

/-- A process with three objects in load order: the executable, a first `libc.so.6`
that does not define `sym`, and a second `libc.so.6` that does. -/
def symbolProcess : Process where
  io := Reader.ofBytes []
  objects := [⟨0x400000, namedObject "/bin/app" none⟩,
    ⟨0x10000, namedObject "/lib/libc.so.6" none⟩,
    ⟨0x20000, namedObject "/opt/lib/libc.so.6" (some 0x30)⟩]
  unwindStep := fun _ => .threw


/-! ## `Process::loadSharedObjects` -/

/-- The members of `struct link_map` that `loadSharedObjects` reads. -/
structure LinkMap where
  l_addr : Nat
  l_name : Nat
  l_next : Nat
deriving DecidableEq, Repr

/-- The members of `Process` and the collaborators that `loadSharedObjects` uses.
`r_map` is `rDebug.r_map` after `io->readObj(rdebugAddr, &rDebug)` (`none` when that
read throws), `linkMapAt a` is the `link_map` that `io->readObj(a, &map)` yields
(`none` when it throws), `readString` is `io->readString`, `e_entry` is
`execImage->getHeader().e_entry`, and `getImageForName` is the image cache (`none`
when it throws). -/
structure Loader where
  r_map : Option Nat
  linkMapAt : Nat → Option LinkMap
  readString : Nat → Option String
  vdsoBase : Nat
  entry : Nat
  execImage : ElfObject
  e_entry : Nat
  pathReplacements : List (String × String)
  getImageForName : String → Option ElfObject

/-- Does the text start with the pattern? -/
def startsWith : List Char → List Char → Bool
  | [], _ => true
  | _ :: _, [] => false
  | p :: ps, x :: xs => p = x && startsWith ps xs

/-- One step of the path-replacement loop: `found = path.find(pat)` and, when the
pattern occurs, `path.replace(found, pat.size(), rep)`. -/
def replaceFirst (pat rep : List Char) : List Char → List Char
  | [] => if pat = [] then rep else []
  | x :: xs =>
    if startsWith pat (x :: xs) then rep ++ (x :: xs).drop pat.length
    else x :: replaceFirst pat rep xs

/-- The loop over `pathReplacements`. -/
def replacePath (replacements : List (String × String)) (path : String) : String :=
  replacements.foldl (fun path it => String.mk (replaceFirst it.1.data it.2.data path.data)) path

/-- How `loadSharedObjects` ends, with the content of `objects` at that point: it
returns, an exception leaves it, the assertion on the executable's load address
fails, or the bound on the number of link-map entries visited is used up. -/
inductive LoadEnd where
  | returned (objects : List LoadedObject)
  | threw (objects : List LoadedObject)
  | assertFailed (objects : List LoadedObject)
  | unfinished (objects : List LoadedObject)

/-- The content of `objects` when `loadSharedObjects` ends. -/
def LoadEnd.objects : LoadEnd → List LoadedObject
  | .returned objects => objects
  | .threw objects => objects
  | .assertFailed objects => objects
  | .unfinished objects => objects

/-- The loop of `Process::loadSharedObjects` over the link map. The first argument
bounds the number of entries visited; `first` is `Elf::Addr(rDebug.r_map)`. -/
def loadLoop (b : Build) (ld : Loader) (first : Nat) :
    Nat → Nat → List LoadedObject → LoadEnd
  | 0, mapAddr, objects => if mapAddr = 0 then .returned objects else .unfinished objects
  | n + 1, mapAddr, objects =>
    if mapAddr = 0 then .returned objects
    else
      match ld.linkMapAt mapAddr with
      | none => .threw objects
      | some map =>
        if map.l_addr = ld.vdsoBase then loadLoop b ld first n map.l_next objects
        else if mapAddr = first then
          if map.l_addr = wsub b.arch.bits ld.entry ld.e_entry then
            loadLoop b ld first n map.l_next (objects ++ [⟨map.l_addr, ld.execImage⟩])
          else .assertFailed objects
        else if map.l_name = 0 then loadLoop b ld first n map.l_next objects
        else
          match ld.readString map.l_name with
          | none => .threw objects
          | some path =>
            if path = "" then loadLoop b ld first n map.l_next objects
            else
              match ld.getImageForName (replacePath ld.pathReplacements path) with
              | some image => loadLoop b ld first n map.l_next (objects ++ [⟨map.l_addr, image⟩])
              | none => loadLoop b ld first n map.l_next objects

/-- Source: `Process::loadSharedObjects(rdebugAddr)`, started with the given content of
`objects` and visiting at most `fuel` link-map entries. -/
def loadSharedObjects (b : Build) (ld : Loader) (fuel : Nat) (objects : List LoadedObject) :
    LoadEnd :=
  match ld.r_map with
  | none => .threw objects
  | some first => loadLoop b ld first fuel first objects

/-- A dynamically linked, non-relocated executable with entry point 0x401000 and one
shared library: the link map has the executable first (at 0x1000, `l_addr` 0), then
`/lib/libc.so.6` (at 0x2000, `l_addr` 0x7f0000). `vdsoBase` is as given; 0 means that
no VDSO has been loaded. -/
def sampleLoader (vdsoBase : Nat) : Loader where
  r_map := some 0x1000
  linkMapAt := fun a =>
    if a = 0x1000 then some ⟨0, 0, 0x2000⟩
    else if a = 0x2000 then some ⟨0x7f0000, 0x3000, 0⟩
    else none
  readString := fun a => if a = 0x3000 then some "/lib/libc.so.6" else none
  vdsoBase := vdsoBase
  entry := 0x401000
  execImage := namedObject "/bin/app" none
  e_entry := 0x401000
  pathReplacements := []
  getImageForName := fun path => some (namedObject path none)

/-! ## Properties of the walker -/

theorem unwindLoop_stack (b : Build) (p : Process) :
    ∀ (n frameCount : Nat) (f : StackFrame) (w : Walk),
      (unwindLoop b p n frameCount f w).stack = w.stack ++ walkFrames b p n frameCount f := by
  intro n
  induction n with
  | zero => intro frameCount f w; simp [unwindLoop, walkFrames]
  | succ n ih =>
    intro frameCount f w
    simp only [unwindLoop, walkFrames, nextFrame]
    cases hs : p.unwindStep f with
    | threw =>
      cases hh : catchHandler b p (frameCount == 0) f with
      | continue_ g => simp [ih]
      | fallThrough g => simp [ih]
      | rethrow => simp
    | null => simp
    | frame g => simp [ih]

theorem unwindLoop_calls (b : Build) (p : Process) :
    ∀ (n frameCount : Nat) (f : StackFrame) (w : Walk),
      (unwindLoop b p n frameCount f w).unwindCalls
        = w.unwindCalls + (walkFrames b p n frameCount f).length := by
  intro n
  induction n with
  | zero => intro frameCount f w; simp [unwindLoop, walkFrames]
  | succ n ih =>
    intro frameCount f w
    simp only [unwindLoop, walkFrames, nextFrame]
    cases hs : p.unwindStep f with
    | threw =>
      cases hh : catchHandler b p (frameCount == 0) f with
      | continue_ g => simp [ih]; omega
      | fallThrough g => simp [ih]; omega
      | rethrow => simp
    | null => simp
    | frame g => simp [ih]; omega

theorem walkFrames_length_le (b : Build) (p : Process) :
    ∀ (n frameCount : Nat) (f : StackFrame), (walkFrames b p n frameCount f).length ≤ n := by
  intro n
  induction n with
  | zero => intro frameCount f; simp [walkFrames]
  | succ n ih =>
    intro frameCount f
    simp only [walkFrames, List.length_cons]
    cases hn : nextFrame b p (frameCount == 0) f with
    | none => simp
    | some g => simpa using ih (frameCount + 1) g

theorem walkFrames_get (b : Build) (p : Process) :
    ∀ (n frameCount : Nat) (f : StackFrame) (i : Nat),
      i < (walkFrames b p n frameCount f).length →
      (walkFrames b p n frameCount f)[i]? = frameFrom b p i frameCount f := by
  intro n
  induction n with
  | zero => intro frameCount f i hi; simp [walkFrames] at hi
  | succ n ih =>
    intro frameCount f i hi
    cases i with
    | zero => simp [walkFrames, frameFrom]
    | succ i =>
      simp only [walkFrames, List.length_cons] at hi
      simp only [walkFrames, frameFrom, List.getElem?_cons_succ]
      cases hn : nextFrame b p (frameCount == 0) f with
      | none => simp [hn] at hi
      | some g =>
        simp only [hn] at hi
        exact ih (frameCount + 1) g i (by omega)

theorem walkFrames_length_of_stop (b : Build) (p : Process) :
    ∀ (k n frameCount : Nat) (f g : StackFrame),
      k < n → frameFrom b p k frameCount f = some g →
      nextFrame b p (frameCount + k == 0) g = none →
      (walkFrames b p n frameCount f).length = k + 1 := by
  intro k
  induction k with
  | zero =>
    intro n frameCount f g hk hf hstop
    obtain ⟨m, rfl⟩ : ∃ m, n = m + 1 := ⟨n - 1, by omega⟩
    simp only [frameFrom, Option.some.injEq] at hf
    subst hf
    simp only [Nat.add_zero] at hstop
    simp [walkFrames, hstop]
  | succ k ih =>
    intro n frameCount f g hk hf hstop
    obtain ⟨m, rfl⟩ : ∃ m, n = m + 1 := ⟨n - 1, by omega⟩
    simp only [frameFrom] at hf
    cases hn : nextFrame b p (frameCount == 0) f with
    | none => simp [hn] at hf
    | some h =>
      simp only [hn] at hf
      have hstop2 : nextFrame b p (frameCount + 1 + k == 0) g = none := by
        have : frameCount + 1 + k = frameCount + (k + 1) := by omega
        rw [this]; exact hstop
      have := ih m (frameCount + 1) h g (by omega) hf hstop2
      simp [walkFrames, hn, this]

theorem unwindLoop_warned_of_null (b : Build) (p : Process) :
    ∀ (k n frameCount : Nat) (f g : StackFrame) (w : Walk),
      k < n → frameFrom b p k frameCount f = some g → p.unwindStep g = .null →
      (unwindLoop b p n frameCount f w).warned = w.warned := by
  intro k
  induction k with
  | zero =>
    intro n frameCount f g w hk hf hstop
    obtain ⟨m, rfl⟩ : ∃ m, n = m + 1 := ⟨n - 1, by omega⟩
    simp only [frameFrom, Option.some.injEq] at hf
    subst hf
    simp [unwindLoop, hstop]
  | succ k ih =>
    intro n frameCount f g w hk hf hstop
    obtain ⟨m, rfl⟩ : ∃ m, n = m + 1 := ⟨n - 1, by omega⟩
    simp only [frameFrom, nextFrame] at hf
    simp only [unwindLoop]
    cases hs : p.unwindStep f with
    | threw =>
      simp only [hs] at hf
      cases hh : catchHandler b p (frameCount == 0) f with
      | continue_ h => simp only [hh] at hf; simpa using ih m (frameCount + 1) h g _ (by omega) hf hstop
      | fallThrough h => simp only [hh] at hf; simpa using ih m (frameCount + 1) h g _ (by omega) hf hstop
      | rethrow => simp [hh] at hf
    | null => simp [hs] at hf
    | frame h => simp only [hs] at hf; simpa using ih m (frameCount + 1) h g _ (by omega) hf hstop

theorem unwindLoop_warned_of_rethrow (b : Build) (p : Process) :
    ∀ (k n frameCount : Nat) (f g : StackFrame) (w : Walk),
      k < n → frameFrom b p k frameCount f = some g → p.unwindStep g = .threw →
      catchHandler b p (frameCount + k == 0) g = .rethrow →
      (unwindLoop b p n frameCount f w).warned = true := by
  intro k
  induction k with
  | zero =>
    intro n frameCount f g w hk hf hstop hre
    obtain ⟨m, rfl⟩ : ∃ m, n = m + 1 := ⟨n - 1, by omega⟩
    simp only [frameFrom, Option.some.injEq] at hf
    subst hf
    simp only [Nat.add_zero] at hre
    simp [unwindLoop, hstop, hre]
  | succ k ih =>
    intro n frameCount f g w hk hf hstop hre
    obtain ⟨m, rfl⟩ : ∃ m, n = m + 1 := ⟨n - 1, by omega⟩
    have hre2 : catchHandler b p (frameCount + 1 + k == 0) g = .rethrow := by
      have : frameCount + 1 + k = frameCount + (k + 1) := by omega
      rw [this]; exact hre
    simp only [frameFrom, nextFrame] at hf
    simp only [unwindLoop]
    cases hs : p.unwindStep f with
    | threw =>
      simp only [hs] at hf
      cases hh : catchHandler b p (frameCount == 0) f with
      | continue_ h =>
        simp only [hh] at hf; simpa using ih m (frameCount + 1) h g _ (by omega) hf hstop hre2
      | fallThrough h =>
        simp only [hh] at hf; simpa using ih m (frameCount + 1) h g _ (by omega) hf hstop hre2
      | rethrow => simp [hh] at hf
    | null => simp [hs] at hf
    | frame h =>
      simp only [hs] at hf; simpa using ih m (frameCount + 1) h g _ (by omega) hf hstop hre2

theorem walkFrames_head (b : Build) (p : Process) (n frameCount : Nat) (f : StackFrame)
    (hn : 0 < n) :
    1 ≤ (walkFrames b p n frameCount f).length
    ∧ (walkFrames b p n frameCount f).head? = some f := by
  cases n with
  | zero => omega
  | succ n => constructor <;> simp [walkFrames]

theorem unwind_stack_eq (b : Build) (p : Process) (regs : CoreRegisters)
    (stack : List StackFrame) :
    (ThreadStack.unwind b p regs stack).stack
      = walkFrames b p gMaxFrames 0 (startFrame b regs) := by
  simp [ThreadStack.unwind, unwindLoop_stack, clear]

theorem unwind_calls_eq (b : Build) (p : Process) (regs : CoreRegisters)
    (stack : List StackFrame) :
    (ThreadStack.unwind b p regs stack).unwindCalls
      = (walkFrames b p gMaxFrames 0 (startFrame b regs)).length := by
  simp [ThreadStack.unwind, unwindLoop_calls, clear]

theorem unwind_get (b : Build) (p : Process) (regs : CoreRegisters)
    (stack : List StackFrame) (i : Nat)
    (hi : i < (ThreadStack.unwind b p regs stack).stack.length) :
    (ThreadStack.unwind b p regs stack).stack[i]? = frameAt b p regs i := by
  rw [unwind_stack_eq] at hi ⊢
  have hle := walkFrames_length_le b p gMaxFrames 0 (startFrame b regs)
  rw [walkFrames_get b p _ _ _ i hi, frameAt, if_pos (by omega)]

theorem frameAt_lt (b : Build) (p : Process) (regs : CoreRegisters) (k : Nat) (f : StackFrame)
    (hk : frameAt b p regs k = some f) :
    k < gMaxFrames ∧ frameFrom b p k 0 (startFrame b regs) = some f := by
  unfold frameAt at hk
  by_cases h : k < gMaxFrames
  · rw [if_pos h] at hk; exact ⟨h, hk⟩
  · rw [if_neg h] at hk; cases hk

/-- C1: whatever the process, the initial register file and the previous content of
the frame list, `ThreadStack::unwind` returns with a frame list that holds between 1
and 1024 (`gMaxFrames`) frames, each of them the frame of this walk at its index; the
first one is the frame built from the initial register file, with `ip` equal to its
instruction-pointer register. The previous content of the list has no influence. -/
theorem unwind_frame_list (b : Build) (p : Process) (regs : CoreRegisters)
    (stack : List StackFrame) :
    1 ≤ (ThreadStack.unwind b p regs stack).stack.length
    ∧ (ThreadStack.unwind b p regs stack).stack.length ≤ gMaxFrames
    ∧ gMaxFrames = 1024
    ∧ (∀ i, i < (ThreadStack.unwind b p regs stack).stack.length →
        (ThreadStack.unwind b p regs stack).stack[i]? = frameAt b p regs i)
    ∧ (ThreadStack.unwind b p regs stack).stack.head? = some (startFrame b regs)
    ∧ (startFrame b regs).regs = regs
    ∧ (startFrame b regs).ip = (startFrame b regs).getReg b.IPREG
    ∧ (startFrame b regs).ip = regs b.IPREG
    ∧ ThreadStack.unwind b p regs stack = ThreadStack.unwind b p regs [] := by
  refine ⟨?_, ?_, rfl, fun i hi => unwind_get b p regs stack i hi, ?_, rfl, rfl, rfl, rfl⟩
  · rw [unwind_stack_eq]
    exact (walkFrames_head b p gMaxFrames 0 (startFrame b regs) (by decide)).1
  · rw [unwind_stack_eq]; exact walkFrames_length_le b p _ _ _
  · rw [unwind_stack_eq]
    exact (walkFrames_head b p gMaxFrames 0 (startFrame b regs) (by decide)).2

/-- C2: if the unwind step of frame `k` of a walk returns null (it succeeds and
reports that there is no caller), `ThreadStack::unwind` ends the walk there: the
frame list consists of the frames 0..k of the walk in order, frame `k` being the
last; exactly `k + 1` unwind steps have been made, and no warning is raised. -/
theorem unwind_stops_at_null (b : Build) (p : Process) (regs : CoreRegisters)
    (stack : List StackFrame) (k : Nat) (f : StackFrame)
    (hk : frameAt b p regs k = some f) (hnull : p.unwindStep f = .null) :
    (ThreadStack.unwind b p regs stack).stack.length = k + 1
    ∧ (∀ i, i ≤ k → (ThreadStack.unwind b p regs stack).stack[i]? = frameAt b p regs i)
    ∧ (ThreadStack.unwind b p regs stack).stack.getLast? = some f
    ∧ (ThreadStack.unwind b p regs stack).unwindCalls = k + 1
    ∧ (ThreadStack.unwind b p regs stack).warned = false := by
  obtain ⟨hlt, hf⟩ := frameAt_lt b p regs k f hk
  have hstop : nextFrame b p (0 + k == 0) f = none := by simp [nextFrame, hnull]
  have hlen := walkFrames_length_of_stop b p k gMaxFrames 0 (startFrame b regs) f hlt hf hstop
  have hlen2 : (ThreadStack.unwind b p regs stack).stack.length = k + 1 := by
    rw [unwind_stack_eq]; exact hlen
  refine ⟨hlen2, fun i hi => unwind_get b p regs stack i (by omega), ?_, ?_, ?_⟩
  · rw [List.getLast?_eq_getElem?, hlen2, Nat.add_sub_cancel,
      unwind_get b p regs stack k (by omega), hk]
  · rw [unwind_calls_eq]; exact hlen
  · exact unwindLoop_warned_of_null b p k gMaxFrames 0 (startFrame b regs) f _ hlt hf hnull

/-- Witness for C2: the walk from 0x1000 in the sample process stops at its second
frame (index 1, at 0x2000), whose unwind step returns null. -/
theorem unwind_stops_at_null_witness :
    frameAt amd64Build sampleProcess (regsWith amd64Build 0x1000 0x7ffc0000) 1
        = some { startFrame amd64Build (regsWith amd64Build 0x1000 0x7ffc0000) with ip := 0x2000 }
    ∧ (ThreadStack.unwind amd64Build sampleProcess
        (regsWith amd64Build 0x1000 0x7ffc0000) []).stack.length = 2
    ∧ (ThreadStack.unwind amd64Build sampleProcess
        (regsWith amd64Build 0x1000 0x7ffc0000) []).unwindCalls = 2 :=
  have h := unwind_stops_at_null amd64Build sampleProcess (regsWith amd64Build 0x1000 0x7ffc0000)
    [] 1 { startFrame amd64Build (regsWith amd64Build 0x1000 0x7ffc0000) with ip := 0x2000 }
    rfl rfl
  ⟨rfl, h.1, h.2.2.2.1⟩

/-- C3: in the x86-64 build, when the unwind step of a frame `k ≥ 1` of the walk
throws, the handler attempts no fall-back (it rethrows, whatever the process), the
exception is caught inside `ThreadStack::unwind`, which raises its warning and
returns, and the frame list consists of exactly the `k + 1` frames 0..k of the walk,
in order. -/
theorem unwind_keeps_frames_on_error (b : Build) (p : Process) (regs : CoreRegisters)
    (stack : List StackFrame) (k : Nat) (f : StackFrame)
    (hb : b.arch = .amd64) (hk1 : 1 ≤ k)
    (hk : frameAt b p regs k = some f) (hthrow : p.unwindStep f = .threw) :
    (∀ q : Process, catchHandler b q false f = .rethrow)
    ∧ (ThreadStack.unwind b p regs stack).stack.length = k + 1
    ∧ (∀ i, i ≤ k → (ThreadStack.unwind b p regs stack).stack[i]? = frameAt b p regs i)
    ∧ (ThreadStack.unwind b p regs stack).stack.getLast? = some f
    ∧ (ThreadStack.unwind b p regs stack).unwindCalls = k + 1
    ∧ (ThreadStack.unwind b p regs stack).warned = true := by
  obtain ⟨hlt, hf⟩ := frameAt_lt b p regs k f hk
  have hre : ∀ q : Process, catchHandler b q false f = .rethrow := by
    intro q; simp [catchHandler, hb]
  have hcount : (0 + k == 0) = false := by
    cases k with
    | zero => omega
    | succ k => simp
  have hstop : nextFrame b p (0 + k == 0) f = none := by
    rw [hcount]; simp only [nextFrame, hthrow, hre p]
  have hlen := walkFrames_length_of_stop b p k gMaxFrames 0 (startFrame b regs) f hlt hf hstop
  have hlen2 : (ThreadStack.unwind b p regs stack).stack.length = k + 1 := by
    rw [unwind_stack_eq]; exact hlen
  refine ⟨hre, hlen2, fun i hi => unwind_get b p regs stack i (by omega), ?_, ?_, ?_⟩
  · rw [List.getLast?_eq_getElem?, hlen2, Nat.add_sub_cancel,
      unwind_get b p regs stack k (by omega), hk]
  · rw [unwind_calls_eq]; exact hlen
  · exact unwindLoop_warned_of_rethrow b p k gMaxFrames 0 (startFrame b regs) f _ hlt hf hthrow
      (by rw [hcount]; exact hre p)

/-- Witness for C3: the walk from 0x3000 in the sample process reaches 0x4000 as
frame 1, whose unwind step throws; both frames are kept. -/
theorem unwind_keeps_frames_on_error_witness :
    frameAt amd64Build sampleProcess (regsWith amd64Build 0x3000 0x7ffc0000) 1
        = some { startFrame amd64Build (regsWith amd64Build 0x3000 0x7ffc0000) with ip := 0x4000 }
    ∧ (ThreadStack.unwind amd64Build sampleProcess
        (regsWith amd64Build 0x3000 0x7ffc0000) []).stack.length = 2
    ∧ (ThreadStack.unwind amd64Build sampleProcess
        (regsWith amd64Build 0x3000 0x7ffc0000) []).warned = true :=
  have h := unwind_keeps_frames_on_error amd64Build sampleProcess
    (regsWith amd64Build 0x3000 0x7ffc0000) [] 1
    { startFrame amd64Build (regsWith amd64Build 0x3000 0x7ffc0000) with ip := 0x4000 }
    rfl (Nat.le_refl 1) rfl rfl
  ⟨rfl, h.2.1, h.2.2.2.2.2⟩

theorem unwindLoop_continue (b : Build) (p : Process) (n frameCount : Nat)
    (f g : StackFrame) (w : Walk) (hs : p.unwindStep f = .threw)
    (hh : catchHandler b p (frameCount == 0) f = .continue_ g) :
    unwindLoop b p (n + 1) frameCount f w
      = unwindLoop b p n (frameCount + 1) g
          ⟨w.stack ++ [f], w.unwindCalls + 1, w.warned⟩ := by
  simp only [unwindLoop, hs, hh]

theorem leBytes_length : ∀ (n v : Nat), (leBytes n v).length = n := by
  intro n
  induction n with
  | zero => intro v; rfl
  | succ n ih => intro v; simp [leBytes, ih]

theorem popReturnAddress_full (b : Build) (p : Process) (f : StackFrame) (bs : List Byte)
    (hread : p.io.read (f.getReg b.SPREG) b.arch.addrBytes = some bs)
    (hlen : bs.length = b.arch.addrBytes) :
    popReturnAddress b p f
      = some (true, ({ f with ip := leValue bs } : StackFrame).setReg b.SPREG
          (wrap b.arch.bits (f.getReg b.SPREG + b.arch.addrBytes))) := by
  have htake : List.take b.arch.addrBytes bs = bs := List.take_of_length_le (by omega)
  have hdrop : List.drop b.arch.addrBytes (leBytes b.arch.addrBytes f.ip) = [] :=
    List.drop_of_length_le (by rw [leBytes_length])
  simp only [popReturnAddress, hread, htake, hlen, hdrop, List.append_nil, if_true]

theorem catchHandler_first_full (b : Build) (p : Process) (f : StackFrame) (bs : List Byte)
    (hb : b.arch = .amd64 ∨ b.arch = .i386)
    (hread : p.io.read (f.getReg b.SPREG) b.arch.addrBytes = some bs)
    (hlen : bs.length = b.arch.addrBytes) :
    catchHandler b p true f
      = .continue_ (({ f with ip := leValue bs } : StackFrame).setReg b.SPREG
          (wrap b.arch.bits (f.getReg b.SPREG + b.arch.addrBytes))) := by
  have hpop := popReturnAddress_full b p f bs hread hlen
  rcases hb with hb | hb <;> simp [catchHandler, hb, hpop]

/-- C4: first-frame fall-back of the x86 and x86-64 builds. When the unwind step of
the initial frame throws and a full pointer-sized word `w` (the little-endian value
of the bytes `bs`) is read at the stack pointer `sp`, frame 1 of the walk, recorded
second in the frame list, has `ip = w`, stack-pointer register `sp + pointer size`
(as a machine word), every other register and member as in the initial frame, and
the loop goes on from that frame. -/
theorem first_frame_fallback (b : Build) (p : Process) (regs : CoreRegisters)
    (stack : List StackFrame) (bs : List Byte)
    (hb : b.arch = .amd64 ∨ b.arch = .i386)
    (hthrow : p.unwindStep (startFrame b regs) = .threw)
    (hread : p.io.read ((startFrame b regs).getReg b.SPREG) b.arch.addrBytes = some bs)
    (hlen : bs.length = b.arch.addrBytes) :
    ∃ g : StackFrame,
      frameAt b p regs 1 = some g
      ∧ (ThreadStack.unwind b p regs stack).stack[1]? = some g
      ∧ g.ip = leValue bs
      ∧ g.getReg b.SPREG
          = ((startFrame b regs).getReg b.SPREG + b.arch.addrBytes) % 2 ^ b.arch.bits
      ∧ (∀ r, r ≠ b.SPREG → g.getReg r = (startFrame b regs).getReg r)
      ∧ g.cfa = (startFrame b regs).cfa ∧ g.cie = (startFrame b regs).cie
      ∧ ThreadStack.unwind b p regs stack
          = unwindLoop b p (gMaxFrames - 1) 1 g ⟨[startFrame b regs], 1, false⟩ := by
  have hh := catchHandler_first_full b p (startFrame b regs) bs hb hread hlen
  have hat : frameAt b p regs 1 = some
      (({ startFrame b regs with ip := leValue bs } : StackFrame).setReg b.SPREG
        (wrap b.arch.bits ((startFrame b regs).getReg b.SPREG + b.arch.addrBytes))) := by
    have h0 : ((0 : Nat) == 0) = true := rfl
    simp only [frameAt, frameFrom, nextFrame, hthrow, h0, hh]
    rfl
  have hloop := unwindLoop_continue b p (gMaxFrames - 1) 0 (startFrame b regs) _
    ⟨clear stack, 0, false⟩ hthrow hh
  have hloop2 : ThreadStack.unwind b p regs stack = unwindLoop b p (gMaxFrames - 1) 1
      (({ startFrame b regs with ip := leValue bs } : StackFrame).setReg b.SPREG
        (wrap b.arch.bits ((startFrame b regs).getReg b.SPREG + b.arch.addrBytes)))
      ⟨[startFrame b regs], 1, false⟩ := hloop
  refine ⟨_, hat, ?_, rfl, ?_, ?_, rfl, rfl, hloop2⟩
  · rw [hloop2, unwindLoop_stack]
    have hhead := (walkFrames_head b p (gMaxFrames - 1) 1
      (({ startFrame b regs with ip := leValue bs } : StackFrame).setReg b.SPREG
        (wrap b.arch.bits ((startFrame b regs).getReg b.SPREG + b.arch.addrBytes)))
      (by decide)).2
    cases hw : walkFrames b p (gMaxFrames - 1) 1
      (({ startFrame b regs with ip := leValue bs } : StackFrame).setReg b.SPREG
        (wrap b.arch.bits ((startFrame b regs).getReg b.SPREG + b.arch.addrBytes))) with
    | nil => rw [hw] at hhead; cases hhead
    | cons a t =>
      rw [hw] at hhead
      simp only [List.head?_cons, Option.some.injEq] at hhead
      subst hhead
      simp
  · simp [StackFrame.setReg, StackFrame.getReg, wrap]
  · intro r hr
    simp [StackFrame.setReg, StackFrame.getReg, hr]

/-- Witness for C4: initial PC 0 with 0x401234 on top of the stack gives a second
frame with PC 0x401234 and the stack pointer advanced by 8. -/
theorem first_frame_fallback_witness :
    sampleProcess.unwindStep (startFrame amd64Build (regsWith amd64Build 0 0x7ffc0000)) = .threw
    ∧ leValue [0x34, 0x12, 0x40, 0, 0, 0, 0, 0] = 0x401234
    ∧ ∃ g : StackFrame,
        (ThreadStack.unwind amd64Build sampleProcess
          (regsWith amd64Build 0 0x7ffc0000) []).stack[1]? = some g
        ∧ g.ip = 0x401234 ∧ g.getReg 7 = 0x7ffc0008 := by
  obtain ⟨g, _, h1, h2, h3, _⟩ := first_frame_fallback amd64Build sampleProcess
    (regsWith amd64Build 0 0x7ffc0000) [] [0x34, 0x12, 0x40, 0, 0, 0, 0, 0]
    (Or.inl rfl) rfl rfl rfl
  exact ⟨rfl, by decide, g, h1, h2.trans (by decide), h3.trans (by decide)⟩

/-- C5, evaluation at the failing input: in the x86-64 build, with an initial frame
whose unwind step throws and a stack from which zero bytes can be read, the frame
list holds two frames (the initial frame and its copy) and the walk only stops, with
the warning, when the copy fails to unwind. The i386 build stops with the initial
frame alone on the same input. -/
theorem short_read_records_second_frame :
    unreadableProcess.unwindStep (startFrame amd64Build (regsWith amd64Build 0 0x7ffc0000))
        = .threw
    ∧ unreadableProcess.io.read 0x7ffc0000 8 = some []
    ∧ (ThreadStack.unwind amd64Build unreadableProcess
        (regsWith amd64Build 0 0x7ffc0000) []).stack.length = 2
    ∧ (ThreadStack.unwind amd64Build unreadableProcess
        (regsWith amd64Build 0 0x7ffc0000) []).stack.map (fun f => f.ip) = [0, 0]
    ∧ (ThreadStack.unwind amd64Build unreadableProcess
        (regsWith amd64Build 0 0x7ffc0000) []).unwindCalls = 2
    ∧ (ThreadStack.unwind amd64Build unreadableProcess
        (regsWith amd64Build 0 0x7ffc0000) []).warned = true
    ∧ (ThreadStack.unwind i386Build unreadableProcess
        (regsWith i386Build 0 0x7ffc0000) []).stack.length = 1 := by
  refine ⟨rfl, rfl, ?_, ?_, ?_, ?_, ?_⟩ <;> decide

theorem symbolAt_true_iff (obj : ElfObject) (name : String) (objip : Nat) :
    symbolAt obj name objip = true
      ↔ ∃ s, obj.findSymbolByName name = some s ∧ objip = s.st_value := by
  unfold symbolAt
  cases h : obj.findSymbolByName name with
  | none => simp
  | some s => simp

theorem symbolAt_false_iff (obj : ElfObject) (name : String) (objip : Nat) :
    symbolAt obj name objip = false
      ↔ ∀ s, obj.findSymbolByName name = some s → objip ≠ s.st_value := by
  unfold symbolAt
  cases h : obj.findSymbolByName name with
  | none => simp
  | some s => simp

theorem getReg_setReg (f : StackFrame) (d v r : Nat) :
    (f.setReg d v).getReg r = if r = d then v else f.getReg r := rfl

theorem foldl_setReg_other (val : Nat → Nat) (r : Nat) :
    ∀ (l : List (Nat × Nat)) (f : StackFrame), r ∉ l.map Prod.fst →
      (l.foldl (fun f reg => f.setReg reg.1 (val reg.2)) f).getReg r = f.getReg r := by
  intro l
  induction l with
  | nil => intro f _; rfl
  | cons x xs ih =>
    intro f hr
    simp only [List.map_cons, List.mem_cons, not_or] at hr
    rw [List.foldl_cons, ih _ hr.2, getReg_setReg, if_neg hr.1]

theorem foldl_setReg_mem (val : Nat → Nat) (d s : Nat) :
    ∀ (l : List (Nat × Nat)) (f : StackFrame), (l.map Prod.fst).Nodup → (d, s) ∈ l →
      (l.foldl (fun f reg => f.setReg reg.1 (val reg.2)) f).getReg d = val s := by
  intro l
  induction l with
  | nil => intro f _ hmem; cases hmem
  | cons x xs ih =>
    intro f hnd hmem
    simp only [List.map_cons, List.nodup_cons] at hnd
    rw [List.foldl_cons]
    rcases List.mem_cons.mp hmem with h | h
    · subst h
      rw [foldl_setReg_other val d xs _ hnd.1, getReg_setReg, if_pos rfl]
    · exact ih _ hnd.2 h

theorem foldl_setReg_members (val : Nat → Nat) :
    ∀ (l : List (Nat × Nat)) (f : StackFrame),
      (l.foldl (fun f reg => f.setReg reg.1 (val reg.2)) f).cfa = f.cfa
      ∧ (l.foldl (fun f reg => f.setReg reg.1 (val reg.2)) f).cie = f.cie
      ∧ (l.foldl (fun f reg => f.setReg reg.1 (val reg.2)) f).ip = f.ip := by
  intro l
  induction l with
  | nil => intro f; exact ⟨rfl, rfl, rfl⟩
  | cons x xs ih =>
    intro f
    rw [List.foldl_cons]
    exact ih _

theorem gregmap_regs (f : StackFrame) (regs : List Byte) :
    (∀ d s, (d, s) ∈ gregmap →
      (gregmap.foldl (fun f reg => f.setReg reg.1 (greg regs reg.2)) f).getReg d = greg regs s)
    ∧ (∀ r, (r = 0 ∨ 14 < r) →
      (gregmap.foldl (fun f reg => f.setReg reg.1 (greg regs reg.2)) f).getReg r = f.getReg r)
    ∧ (gregmap.foldl (fun f reg => f.setReg reg.1 (greg regs reg.2)) f).cfa = f.cfa
    ∧ (gregmap.foldl (fun f reg => f.setReg reg.1 (greg regs reg.2)) f).cie = f.cie
    ∧ (gregmap.foldl (fun f reg => f.setReg reg.1 (greg regs reg.2)) f).ip = f.ip := by
  refine ⟨?_, ?_, foldl_setReg_members (greg regs) gregmap f⟩
  · intro d s hmem
    exact foldl_setReg_mem (greg regs) d s gregmap f (by decide) hmem
  · intro r hr
    apply foldl_setReg_other (greg regs) r gregmap f
    simp only [gregmap, List.map_cons, List.map_nil, List.mem_cons, List.not_mem_nil, or_false,
      not_or]
    omega

theorem trampoline_synthesised (b : Build) (p : Process) (f : StackFrame) (obj : ElfObject)
    (reloc addr : Nat) (regs : List Byte)
    (hobj : p.findObject b f.ip 0 = (some obj, reloc))
    (haddr :
      (symbolAt obj "__restore" (wsub 32 f.ip reloc) = true
        ∧ addr = wrap 32 (f.getReg b.SPREG + 4))
      ∨ (symbolAt obj "__restore" (wsub 32 f.ip reloc) = false
        ∧ symbolAt obj "__restore_rt" (wsub 32 f.ip reloc) = true
        ∧ ∃ w, p.io.readObj (wrap 32 (f.getReg b.SPREG + 8)) 4 = some w
            ∧ addr = wrap 32 (leValue w + 20)))
    (hregs : p.io.readObj addr (4 * NGREG) = some regs) :
    trampoline b p f = .continue_
      { gregmap.foldl (fun f reg => f.setReg reg.1 (greg regs reg.2)) f with
        ip := greg regs REG_EIP } := by
  unfold trampoline
  rw [hobj]
  rcases haddr with ⟨h1, rfl⟩ | ⟨h1, h2, w, hw, rfl⟩
  · simp only [h1, if_true, hregs]
  · simp only [h1, h2, if_true, hw, hregs, Bool.false_eq_true, if_false]

/-- C6 (amended): signal-trampoline recovery in the i386 build. For a non-initial
frame whose unwind step throws and whose object-relative PC (in the object that
`findObject` returns for the PC) equals the value of `__restore`, or equals the
value of `__restore_rt` while not being the value of a symbol `__restore`, the next
frame is synthesised from the general-register set read at `sp+4`, respectively at
`*(sp+8)+20` (32-bit arithmetic): each DWARF register of the table `gregmap`
(registers 1..14) holds its slot, `ip` is the `REG_EIP` slot, every register outside
the table and every other member is copied from the failing frame, and the loop goes
round again with that frame. -/
theorem trampoline_recovery (b : Build) (p : Process) (f : StackFrame) (obj : ElfObject)
    (reloc addr : Nat) (regs : List Byte)
    (hb : b.arch = .i386)
    (hthrow : p.unwindStep f = .threw)
    (hobj : p.findObject b f.ip 0 = (some obj, reloc))
    (haddr :
      ((∃ s, obj.findSymbolByName "__restore" = some s ∧ wsub 32 f.ip reloc = s.st_value)
        ∧ addr = (f.getReg b.SPREG + 4) % 2 ^ 32)
      ∨ ((∀ s, obj.findSymbolByName "__restore" = some s → wsub 32 f.ip reloc ≠ s.st_value)
        ∧ (∃ s, obj.findSymbolByName "__restore_rt" = some s ∧ wsub 32 f.ip reloc = s.st_value)
        ∧ ∃ w, p.io.readObj ((f.getReg b.SPREG + 8) % 2 ^ 32) 4 = some w
            ∧ addr = (leValue w + 20) % 2 ^ 32))
    (hregs : p.io.readObj addr (4 * NGREG) = some regs) :
    ∃ g : StackFrame,
      catchHandler b p false f = .continue_ g
      ∧ (∀ d s, (d, s) ∈ gregmap → g.getReg d = greg regs s)
      ∧ gregmap.map Prod.fst = List.range' 1 14
      ∧ g.getReg 8 = greg regs REG_EIP ∧ g.getReg 4 = greg regs REG_ESP
      ∧ g.getReg 5 = greg regs REG_EBP
      ∧ g.ip = greg regs REG_EIP
      ∧ (∀ r, (r = 0 ∨ 14 < r) → g.getReg r = f.getReg r)
      ∧ g.cfa = f.cfa ∧ g.cie = f.cie
      ∧ (∀ (n frameCount : Nat) (w : Walk), frameCount ≠ 0 →
          unwindLoop b p (n + 1) frameCount f w
            = unwindLoop b p n (frameCount + 1) g
                ⟨w.stack ++ [f], w.unwindCalls + 1, w.warned⟩) := by
  have haddr2 :
      (symbolAt obj "__restore" (wsub 32 f.ip reloc) = true
        ∧ addr = wrap 32 (f.getReg b.SPREG + 4))
      ∨ (symbolAt obj "__restore" (wsub 32 f.ip reloc) = false
        ∧ symbolAt obj "__restore_rt" (wsub 32 f.ip reloc) = true
        ∧ ∃ w, p.io.readObj (wrap 32 (f.getReg b.SPREG + 8)) 4 = some w
            ∧ addr = wrap 32 (leValue w + 20)) := by
    rcases haddr with ⟨h1, h2⟩ | ⟨h1, h2, h3⟩
    · exact Or.inl ⟨(symbolAt_true_iff _ _ _).mpr h1, h2⟩
    · exact Or.inr ⟨(symbolAt_false_iff _ _ _).mpr h1, (symbolAt_true_iff _ _ _).mpr h2, h3⟩
  have ht := trampoline_synthesised b p f obj reloc addr regs hobj haddr2 hregs
  have hh : catchHandler b p false f = .continue_
      { gregmap.foldl (fun f reg => f.setReg reg.1 (greg regs reg.2)) f with
        ip := greg regs REG_EIP } := by
    simp only [catchHandler, hb, ht, Bool.false_eq_true, if_false]
  obtain ⟨hin, hout, hcfa, hcie, _⟩ := gregmap_regs f regs
  refine ⟨_, hh, hin, by decide, hin 8 REG_EIP (by decide), hin 4 REG_ESP (by decide),
    hin 5 REG_EBP (by decide), rfl, hout, hcfa, hcie, ?_⟩
  intro n frameCount w hfc
  have hcount : (frameCount == 0) = false := by
    cases frameCount with
    | zero => exact absurd rfl hfc
    | succ k => rfl
  exact unwindLoop_continue b p n frameCount f _ w hthrow (by rw [hcount]; exact hh)

/-- Witness for C6 (amended): with only `__restore_rt` at 0x1500, the frame at 0x1500
with stack pointer 0x8000 is followed by the frame synthesised from the register set
at `*(sp+8)+20 = 0x8100`, whose `REG_EIP` slot is 0xbb. -/
theorem trampoline_recovery_witness :
    (signalProcess none (some 0x1500)).unwindStep
        { startFrame i386Build (regsWith i386Build 0x5000 0x8000) with ip := 0x1500 } = .threw
    ∧ (signalProcess none (some 0x1500)).io.readObj 0x8008 4 = some [0xec, 0x80, 0, 0]
    ∧ ∃ g : StackFrame,
        catchHandler i386Build (signalProcess none (some 0x1500)) false
          { startFrame i386Build (regsWith i386Build 0x5000 0x8000) with ip := 0x1500 }
            = .continue_ g
        ∧ g.ip = 0xbb := by
  obtain ⟨g, hg, _, _, _, _, _, hip, _⟩ := trampoline_recovery i386Build
    (signalProcess none (some 0x1500))
    { startFrame i386Build (regsWith i386Build 0x5000 0x8000) with ip := 0x1500 }
    (libcObject none (some 0x1500)) 0 0x8100
    ((List.range 76).map (fun i => signalByte (0x8100 + i)))
    rfl rfl rfl
    (Or.inr ⟨(fun s h => by cases h), ⟨⟨0x1500, 0⟩, rfl, by decide⟩,
      ⟨[0xec, 0x80, 0, 0], rfl, by decide⟩⟩)
    rfl
  exact ⟨rfl, rfl, g, hg, hip.trans (by decide)⟩

/-- Counterexample to C6 as stated: when `__restore` and `__restore_rt` both have
the value 0x1500, the non-initial frame at 0x1500 satisfies the premise for
`__restore_rt`, and the register set at `*(sp+8)+20 = 0x8100` has 0xbb in its
`REG_EIP` slot; yet the next frame is synthesised from the bytes at `sp+4`, and its
`ip` is 0xaa. -/
theorem trampoline_restore_rt_shadowed :
    frameAt i386Build (signalProcess (some 0x1500) (some 0x1500))
        (regsWith i386Build 0x5000 0x8000) 1
      = some { startFrame i386Build (regsWith i386Build 0x5000 0x8000) with ip := 0x1500 }
    ∧ (signalProcess (some 0x1500) (some 0x1500)).unwindStep
        { startFrame i386Build (regsWith i386Build 0x5000 0x8000) with ip := 0x1500 } = .threw
    ∧ (signalProcess (some 0x1500) (some 0x1500)).findObject i386Build 0x1500 0
        = (some (libcObject (some 0x1500) (some 0x1500)), 0)
    ∧ (libcObject (some 0x1500) (some 0x1500)).findSymbolByName "__restore_rt"
        = some ⟨0x1500, 0⟩
    ∧ wsub 32 0x1500 0 = 0x1500
    ∧ (signalProcess (some 0x1500) (some 0x1500)).io.readObj (wrap 32 (0x8000 + 8)) 4
        = some [0xec, 0x80, 0, 0]
    ∧ wrap 32 (leValue [0xec, 0x80, 0, 0] + 20) = 0x8100
    ∧ (signalProcess (some 0x1500) (some 0x1500)).io.readObj 0x8100 (4 * NGREG)
        = some ((List.range 76).map (fun i => signalByte (0x8100 + i)))
    ∧ greg ((List.range 76).map (fun i => signalByte (0x8100 + i))) REG_EIP = 0xbb
    ∧ ∃ g : StackFrame,
        frameAt i386Build (signalProcess (some 0x1500) (some 0x1500))
          (regsWith i386Build 0x5000 0x8000) 2 = some g
        ∧ (ThreadStack.unwind i386Build (signalProcess (some 0x1500) (some 0x1500))
            (regsWith i386Build 0x5000 0x8000) []).stack[2]? = some g
        ∧ g.ip = 0xaa
        ∧ g.ip ≠ greg ((List.range 76).map (fun i => signalByte (0x8100 + i))) REG_EIP :=
  ⟨rfl, rfl, rfl, rfl, by decide, rfl, by decide, rfl, by decide,
    _, rfl, rfl, by decide, by decide⟩

/-! ## Properties of the printer -/

theorem sigmsg_flagged (frame : StackFrame) (cie : CIE) (hcie : frame.cie = some cie)
    (hsig : cie.isSignalHandler = true) : sigmsg frame = "[signal handler called]" := by
  simp [sigmsg, hcie, hsig]

/-- C7 (amended): for a frame whose CIE is flagged as a signal handler and whose
`ip` lies in a loaded object, the text written for the frame contains
"[signal handler called]"; the address handed to the source-line lookup (made
unless sources are suppressed) is the object-relative PC minus 1 in word arithmetic,
in the text output and in the JSON output alike, and it is the same whatever the
CIE of the frame is. -/
theorem signal_frame_text (b : Build) (p : Process) (options : PstackOptions) (verbose : Int)
    (frameNo : Nat) (frame : StackFrame) (cie : CIE) (obj : ElfObject) (loadAddr sysent : Nat)
    (hcie : frame.cie = some cie) (hsig : cie.isSignalHandler = true)
    (hobj : p.findObject b frame.ip 0 = (some obj, loadAddr)) :
    Piece.text "[signal handler called]" ∈ (p.dumpFrame b options verbose frameNo frame).out
    ∧ (p.dumpFrame b options verbose frameNo frame).sourceAddrs
        = (if options.nosrc then []
           else [wsub b.arch.bits (wsub b.arch.bits frame.ip loadAddr) 1])
    ∧ (frame.ip ≠ sysent → jsonSourceAddrs b p sysent frame
        = [wsub b.arch.bits (wsub b.arch.bits frame.ip loadAddr) 1])
    ∧ (∀ c : Option CIE,
        (p.dumpFrame b options verbose frameNo { frame with cie := c }).sourceAddrs
          = (p.dumpFrame b options verbose frameNo frame).sourceAddrs
        ∧ jsonSourceAddrs b p sysent { frame with cie := c } = jsonSourceAddrs b p sysent frame) := by
  have hmsg := sigmsg_flagged frame cie hcie hsig
  refine ⟨?_, ?_, ?_, ?_⟩
  · simp only [Process.dumpFrame, hobj, hmsg]
    cases functionDIE (wsub b.arch.bits frame.ip loadAddr)
        (if obj.dwarf.hasRanges = true then
          unitsForRanges obj.dwarf (wsub b.arch.bits frame.ip loadAddr) obj.dwarf.ranges
        else obj.dwarf.getUnits) with
    | none => simp
    | some de => simp
  · simp only [Process.dumpFrame, hobj]
    cases options.nosrc <;> simp
  · intro hne
    simp [jsonSourceAddrs, hobj, hne]
  · intro c
    constructor
    · simp only [Process.dumpFrame, hobj]
    · simp only [jsonSourceAddrs, hobj]

/-- Witness for C7 (amended): the flagged frame at 0x1500 in the sample C library is
marked, and its source line is looked up at 0x14ff. -/
theorem signal_frame_text_witness :
    signalFrame.cie = some ⟨true⟩
    ∧ Piece.text "[signal handler called]"
        ∈ ((signalProcess none (some 0x1500)).dumpFrame i386Build ⟨false, false⟩ 0 1
            signalFrame).out
    ∧ ((signalProcess none (some 0x1500)).dumpFrame i386Build ⟨false, false⟩ 0 1
        signalFrame).sourceAddrs = [0x14ff] :=
  have h := signal_frame_text i386Build (signalProcess none (some 0x1500)) ⟨false, false⟩ 0 1
    signalFrame ⟨true⟩ (libcObject none (some 0x1500)) 0 0 rfl rfl rfl
  ⟨rfl, h.1, h.2.1⟩

/-- Counterexample to C7 as stated: the frame at 0x1500 of the C library loaded at 0
has a CIE flagged as a signal handler and object-relative PC 0x1500, yet the text
output and the JSON output both look its source line up at 0x14ff. Moreover a
flagged frame whose `ip` lies in no loaded object is printed without the marker. -/
theorem signal_frame_lookup_minus_one :
    signalFrame.cie = some ⟨true⟩
    ∧ wsub i386Build.arch.bits signalFrame.ip 0 = 0x1500
    ∧ ((signalProcess none (some 0x1500)).dumpFrame i386Build ⟨false, false⟩ 0 1
        signalFrame).sourceAddrs = [0x14ff]
    ∧ ((signalProcess none (some 0x1500)).dumpFrame i386Build ⟨false, false⟩ 0 1
        signalFrame).sourceAddrs ≠ [0x1500]
    ∧ jsonSourceAddrs i386Build (signalProcess none (some 0x1500)) 0 signalFrame = [0x14ff]
    ∧ strayFrame.cie = some ⟨true⟩
    ∧ Piece.text "[signal handler called]"
        ∉ ((signalProcess none (some 0x1500)).dumpFrame i386Build ⟨false, false⟩ 0 1
            strayFrame).out := by
  refine ⟨rfl, by decide, by decide, by decide, by decide, rfl, by decide⟩

/-! ## Properties of the byte cursor -/

theorem lor_shiftLeft_of_lt (a b k : Nat) (h : a < 2 ^ k) : a ||| b <<< k = a + b * 2 ^ k := by
  rw [Nat.shiftLeft_eq, Nat.lor_comm, Nat.mul_comm b, ← Nat.mul_add_lt_is_or h, Nat.add_comm]

theorem toUInt32_toInt32 (x : Nat) (h : x < 2 ^ 32) : toUInt32 (toInt32 (x : Nat)) = x := by
  unfold toUInt32 toInt32
  have h2 : (2 : Int) ^ 32 = 4294967296 := by norm_num
  have h3 : (2 : Int) ^ 31 = 2147483648 := by norm_num
  have h4 : (2 : Nat) ^ 32 = 4294967296 := by norm_num
  rw [h2, h3]
  rw [h4] at h
  omega

/-- C9: fixed-width reads are little-endian. With the bytes `b0 b1 b2 b3` at the
cursor, `getu32` returns `b0 + 256*b1 + 65536*b2 + 16777216*b3`, a value below
`2^32` (also when `b3 ≥ 0x80`), `getu16` returns `b0 + 256*b1`, `getu8` returns `b0`
and `gets8` returns `b0` read as a two's-complement signed byte. -/
theorem fixed_width_reads (r : DWARFReader) (b0 b1 b2 b3 : Byte)
    (h4 : r.io.readObj r.off 4 = some [b0, b1, b2, b3])
    (h2 : r.io.readObj r.off 2 = some [b0, b1])
    (h1 : r.io.readObj r.off 1 = some [b0]) :
    r.getu32 = .ok (b0.val + 256 * b1.val + 65536 * b2.val + 16777216 * b3.val, r.advance 4)
    ∧ b0.val + 256 * b1.val + 65536 * b2.val + 16777216 * b3.val < 2 ^ 32
    ∧ r.getu16 = .ok (b0.val + 256 * b1.val, r.advance 2)
    ∧ r.getu8 = .ok (b0.val, r.advance 1)
    ∧ r.gets8 = .ok ((if b0.val < 128 then (b0.val : Int) else (b0.val : Int) - 256),
        r.advance 1) := by
  have hb0 := b0.isLt
  have hb1 := b1.isLt
  have hb2 := b2.isLt
  have hb3 := b3.isLt
  have p8 : (2 : Nat) ^ 8 = 256 := by norm_num
  have p16 : (2 : Nat) ^ 16 = 65536 := by norm_num
  have p24 : (2 : Nat) ^ 24 = 16777216 := by norm_num
  have p32 : (2 : Nat) ^ 32 = 4294967296 := by norm_num
  have e1 : b0.val ||| b1.val <<< 8 = b0.val + b1.val * 2 ^ 8 :=
    lor_shiftLeft_of_lt _ _ 8 (by omega)
  have e2 : (b0.val + b1.val * 2 ^ 8) ||| b2.val <<< 16 = b0.val + b1.val * 2 ^ 8 + b2.val * 2 ^ 16 :=
    lor_shiftLeft_of_lt _ _ 16 (by omega)
  have e3 : toUInt32 (toInt32 ((b3.val <<< 24 : Nat) : Int)) = b3.val <<< 24 :=
    toUInt32_toInt32 _ (by rw [Nat.shiftLeft_eq]; omega)
  have e4 : (b0.val + b1.val * 2 ^ 8 + b2.val * 2 ^ 16) ||| b3.val <<< 24
      = b0.val + b1.val * 2 ^ 8 + b2.val * 2 ^ 16 + b3.val * 2 ^ 24 :=
    lor_shiftLeft_of_lt _ _ 24 (by omega)
  refine ⟨?_, by omega, ?_, ?_, ?_⟩
  · unfold DWARFReader.getu32
    rw [h4]
    show Except.ok (wrap 32 (b0.val ||| b1.val <<< 8 ||| b2.val <<< 16
      ||| toUInt32 (toInt32 ((b3.val <<< 24 : Nat) : Int))), r.advance 4) = _
    rw [e3, e1, e2, e4, wrap, Nat.mod_eq_of_lt (by omega), p8, p16, p24]
    have e : b0.val + b1.val * 256 + b2.val * 65536 + b3.val * 16777216
        = b0.val + 256 * b1.val + 65536 * b2.val + 16777216 * b3.val := by omega
    rw [e]
  · unfold DWARFReader.getu16
    rw [h2]
    show Except.ok (wrap 16 (b0.val ||| b1.val <<< 8), r.advance 2) = _
    rw [e1, wrap, Nat.mod_eq_of_lt (by omega), p8]
    have e : b0.val + b1.val * 256 = b0.val + 256 * b1.val := by omega
    rw [e]
  · unfold DWARFReader.getu8
    rw [h1]
    rfl
  · unfold DWARFReader.gets8
    rw [h1]
    show Except.ok (toInt8 b0.val, r.advance 1) = _
    unfold toInt8
    have hm : b0.val % 256 = b0.val := Nat.mod_eq_of_lt hb0
    rw [hm]

/-- Witness for C9: the bytes `78 56 34 ff` read as 0xff345678 (last byte above
0x7f), as 0x5678, as 0x78; the byte `ff` reads as the signed byte -1. -/
theorem fixed_width_reads_witness :
    (DWARFReader.new .amd64 (Reader.ofBytes [0x78, 0x56, 0x34, 0xff]) 0 none).getu32
      = .ok (0xff345678,
          (DWARFReader.new .amd64 (Reader.ofBytes [0x78, 0x56, 0x34, 0xff]) 0 none).advance 4)
    ∧ (DWARFReader.new .amd64 (Reader.ofBytes [0xff, 0x56, 0x34, 0xff]) 0 none).gets8
      = .ok (-1, (DWARFReader.new .amd64 (Reader.ofBytes [0xff, 0x56, 0x34, 0xff]) 0 none).advance 1) :=
  ⟨(fixed_width_reads (DWARFReader.new .amd64 (Reader.ofBytes [0x78, 0x56, 0x34, 0xff]) 0 none)
      0x78 0x56 0x34 0xff rfl rfl rfl).1,
   (fixed_width_reads (DWARFReader.new .amd64 (Reader.ofBytes [0xff, 0x56, 0x34, 0xff]) 0 none)
      0xff 0x56 0x34 0xff rfl rfl rfl).2.2.2.2⟩

theorem leValue_lt : ∀ bs : List Byte, leValue bs < 256 ^ bs.length := by
  intro bs
  induction bs with
  | nil => simp [leValue]
  | cons b bs ih =>
    have hb := b.isLt
    simp only [leValue, List.length_cons, Nat.pow_succ]
    omega

theorem leValue_mod : ∀ (n : Nat) (bs : List Byte),
    leValue bs % 256 ^ n = leValue (bs.take n) := by
  intro n
  induction n with
  | zero => intro bs; simp [leValue, Nat.mod_one]
  | succ n ih =>
    intro bs
    cases bs with
    | nil => simp [leValue]
    | cons b bs =>
      have hb := b.isLt
      simp only [List.take_succ_cons, leValue]
      rw [← ih bs, Nat.pow_succ, Nat.mul_comm (256 ^ n) 256, Nat.mod_mul]
      have h1 : (b.val + 256 * leValue bs) % 256 = b.val := by omega
      have h2 : (b.val + 256 * leValue bs) / 256 = leValue bs := by omega
      rw [h1, h2]

theorem readObj_length (io : Reader) (off n : Nat) (bs : List Byte)
    (h : io.readObj off n = some bs) : bs.length = n := by
  unfold Reader.readObj at h
  split at h
  · split at h
    · cases h; assumption
    · cases h
  · cases h

theorem getuintLoop_eq_foldl (bytes : List Byte) (len : Nat) :
    ∀ (ks : List Nat) (rc : Nat),
      getuintLoop bytes len ks rc
        = (ks.map (fun k => bytes.getD (len - (k + 1)) 0)).foldl
            (fun rc b => wrap 64 (rc <<< 8) ||| b.val) rc := by
  intro ks
  induction ks with
  | nil => intro rc; rfl
  | cons k ks ih => intro rc; simp only [getuintLoop, List.map_cons, List.foldl_cons, ih]

theorem range_map_reverse (bytes : List Byte) :
    (List.range bytes.length).map (fun k => bytes.getD (bytes.length - (k + 1)) 0)
      = bytes.reverse := by
  apply List.ext_getElem
  · simp
  · intro i h1 h2
    simp only [List.length_map, List.length_range] at h1
    simp only [List.getElem_map, List.getElem_range, List.getElem_reverse]
    rw [List.getD_eq_getElem?_getD, List.getElem?_eq_getElem (by omega)]
    simp only [Option.getD_some]
    congr 1
    omega

theorem foldr_bytes (bs : List Byte) :
    bs.foldr (fun b rc => wrap 64 (rc <<< 8) ||| b.val) 0 = leValue bs % 2 ^ 64 := by
  induction bs with
  | nil => simp [leValue]
  | cons b bs ih =>
    have hb := b.isLt
    rw [List.foldr_cons, ih]
    simp only [leValue, wrap, Nat.shiftLeft_eq]
    have hmul : leValue bs % 2 ^ 64 * 2 ^ 8 % 2 ^ 64 = 2 ^ 8 * (leValue bs % 2 ^ 56) := by
      have : (2 : Nat) ^ 64 = 2 ^ 8 * 2 ^ 56 := by norm_num
      rw [Nat.mul_comm _ (2 ^ 8), this, Nat.mul_mod_mul_left]
      congr 1
      omega
    rw [hmul, ← Nat.mul_add_lt_is_or (by omega)]
    omega

theorem getuintLoop_value (bytes : List Byte) :
    getuintLoop bytes bytes.length (List.range bytes.length) 0 = leValue bytes % 2 ^ 64 := by
  rw [getuintLoop_eq_foldl, range_map_reverse, List.foldl_reverse, foldr_bytes]

/-- C10: variable-width unsigned read. For `0 ≤ len ≤ 16` with the `len` bytes `bs`
at the cursor, `getuint(len)` succeeds and returns their little-endian value
modulo `2^64`; that is the value itself when `len ≤ 8`, and the value of the first
8 bytes in any case. For `len > 16` (17 for one) `getuint` fails, whatever the
content; a 16-byte read is not rejected for its size. -/
theorem getuint_value (r : DWARFReader) :
    (∀ (len : Int) (bs : List Byte), 0 ≤ len → len ≤ 16 →
      r.io.readObj r.off len.toNat = some bs →
      r.getuint len = .ok (leValue bs % 2 ^ 64, r.advanceInt len)
      ∧ bs.length = len.toNat
      ∧ (len ≤ 8 → leValue bs % 2 ^ 64 = leValue bs)
      ∧ leValue bs % 2 ^ 64 = leValue (bs.take 8))
    ∧ (∀ len : Int, 16 < len → r.getuint len = .error (.intSize len))
    ∧ r.getuint 17 = .error (.intSize 17)
    ∧ r.getuint 16 ≠ .error (.intSize 16) := by
  refine ⟨?_, ?_, ?_, ?_⟩
  · intro len bs h0 h16 hread
    have hlen : bs.length = len.toNat := readObj_length r.io r.off _ bs hread
    have hcount : (len % 2 ^ r.bits).toNat = len.toNat := by
      have hpow : (2 : Int) ^ 32 ≤ 2 ^ r.bits := by
        unfold DWARFReader.bits Arch.bits Arch.addrBytes
        cases r.arch <;> norm_num
      rw [Int.emod_eq_of_lt h0 (by norm_num at hpow; omega)]
    have hlen8 : len ≤ 8 → leValue bs % 2 ^ 64 = leValue bs := by
      intro h8
      apply Nat.mod_eq_of_lt
      have h1 := leValue_lt bs
      have h2 : 256 ^ bs.length ≤ 256 ^ 8 := Nat.pow_le_pow_right (by norm_num) (by omega)
      have h3 : (256 : Nat) ^ 8 = 2 ^ 64 := by norm_num
      omega
    have htake : leValue bs % 2 ^ 64 = leValue (bs.take 8) := by
      have h3 : (2 : Nat) ^ 64 = 256 ^ 8 := by norm_num
      rw [h3, leValue_mod]
    refine ⟨?_, hlen, hlen8, htake⟩
    have hnot : ¬ len > 16 := by omega
    unfold DWARFReader.getuint
    rw [if_neg hnot, hcount, hread]
    simp only []
    rw [← hlen, getuintLoop_value]
  · intro len hlen
    simp [DWARFReader.getuint, hlen]
  · simp [DWARFReader.getuint]
  · unfold DWARFReader.getuint
    rw [if_neg (by norm_num)]
    split <;> simp

/-- Witness for C10: of sixteen bytes `01 02 .. 10` a 16-byte read returns the value
of the first eight; a 17-byte read is rejected. -/
theorem getuint_value_witness :
    (DWARFReader.new .amd64
        (Reader.ofBytes [1, 2, 3, 4, 5, 6, 7, 8, 9, 10, 11, 12, 13, 14, 15, 16, 17]) 0 none).getuint 16
          = .ok (0x0807060504030201, (DWARFReader.new .amd64
        (Reader.ofBytes [1, 2, 3, 4, 5, 6, 7, 8, 9, 10, 11, 12, 13, 14, 15, 16, 17]) 0 none).advanceInt 16)
    ∧ (DWARFReader.new .amd64
        (Reader.ofBytes [1, 2, 3, 4, 5, 6, 7, 8, 9, 10, 11, 12, 13, 14, 15, 16, 17]) 0 none).getuint 17
          = .error (.intSize 17) :=
  ⟨((getuint_value (DWARFReader.new .amd64
      (Reader.ofBytes [1, 2, 3, 4, 5, 6, 7, 8, 9, 10, 11, 12, 13, 14, 15, 16, 17]) 0 none)).1 16
      [1, 2, 3, 4, 5, 6, 7, 8, 9, 10, 11, 12, 13, 14, 15, 16] (by decide) (by decide) rfl).1,
   (getuint_value (DWARFReader.new .amd64
      (Reader.ofBytes [1, 2, 3, 4, 5, 6, 7, 8, 9, 10, 11, 12, 13, 14, 15, 16, 17]) 0 none)).2.2.1⟩

set_option maxRecDepth 100000 in
theorem byte_continuation : ∀ b : Byte, (b.val &&& 0x80 = 0) ↔ b.val < 128 := by decide

theorem lebValue_lt : ∀ bs : List Byte, lebValue bs < 2 ^ (7 * bs.length) := by
  intro bs
  induction bs with
  | nil => simp [lebValue]
  | cons b bs ih =>
    have e : 2 ^ (7 * (bs.length + 1)) = 128 * 2 ^ (7 * bs.length) := by
      rw [Nat.mul_add, Nat.pow_add]; norm_num; ring
    simp only [lebValue, List.length_cons, e]
    omega

theorem leb_group (result byte shift : Nat) (hres : result < 2 ^ shift) (hs : shift + 7 ≤ 64) :
    result ||| wrap 64 ((byte &&& 0x7f) <<< shift) = result + byte % 128 * 2 ^ shift := by
  have hand : byte &&& 0x7f = byte % 128 := Nat.and_pow_two_sub_one_eq_mod byte 7
  have hlt : byte % 128 * 2 ^ shift < 2 ^ 64 := by
    have h1 : byte % 128 < 2 ^ 7 := by norm_num; omega
    have h2 : byte % 128 * 2 ^ shift < 2 ^ 7 * 2 ^ shift :=
      Nat.mul_lt_mul_of_pos_right h1 (Nat.two_pow_pos shift)
    have h3 : 2 ^ 7 * 2 ^ shift ≤ 2 ^ 64 := by
      rw [← Nat.pow_add]; exact Nat.pow_le_pow_right (by norm_num) (by omega)
    omega
  rw [hand, wrap, Nat.shiftLeft_eq, Nat.mod_eq_of_lt hlt, ← Nat.shiftLeft_eq,
    lor_shiftLeft_of_lt _ _ _ hres, Nat.shiftLeft_eq]

theorem advance_advance (r : DWARFReader) (a c : Nat) :
    (r.advance a).advance c = r.advance (a + c) := by
  simp only [DWARFReader.advance, Nat.mod_add_mod, Nat.add_assoc]

theorem getuleb128shiftLoop_value :
    ∀ (init : List Byte) (last : Byte) (n : Nat) (r : DWARFReader) (result shift : Nat),
      (∀ b ∈ init, b.val &&& 0x80 ≠ 0) → last.val &&& 0x80 = 0 →
      init.length < n → result < 2 ^ shift → shift + 7 * (init.length + 1) ≤ 64 →
      (∀ i, i < init.length + 1 →
        r.io.readObj (wrap r.bits (r.off + i)) 1 = ((init ++ [last])[i]?).map (fun b => [b])) →
      getuleb128shiftLoop n r result shift
        = .ok ((result + lebValue (init ++ [last]) * 2 ^ shift, shift + 7 * (init.length + 1),
            decide (last.val &&& 0x40 ≠ 0)), r.advance (init.length + 1)) := by
  intro init
  induction init with
  | nil =>
    intro last n r result shift _ hlast hn hres hs hbytes
    have hoff : r.off < 2 ^ r.bits := r.off_lt
    obtain ⟨m, rfl⟩ : ∃ m, n = m + 1 := ⟨n - 1, by simp at hn; omega⟩
    have h0 := hbytes 0 (by simp)
    simp only [Nat.add_zero, wrap, Nat.mod_eq_of_lt hoff, List.nil_append,
      List.getElem?_cons_zero, Option.map_some'] at h0
    have hg := leb_group result last.val shift hres (by simp at hs; omega)
    simp only [getuleb128shiftLoop, DWARFReader.getu8, h0, List.getD_cons_zero, hlast, if_true,
      hg, lebValue, List.nil_append, List.length_nil]
    simp
  | cons b init ih =>
    intro last n r result shift hcont hlast hn hres hs hbytes
    have hoff : r.off < 2 ^ r.bits := r.off_lt
    obtain ⟨m, rfl⟩ : ∃ m, n = m + 1 := ⟨n - 1, by simp at hn; omega⟩
    have h0 := hbytes 0 (by simp)
    simp only [Nat.add_zero, wrap, Nat.mod_eq_of_lt hoff, List.cons_append,
      List.getElem?_cons_zero, Option.map_some'] at h0
    have hb : b.val &&& 0x80 ≠ 0 := hcont b (List.mem_cons_self _ _)
    simp only [List.length_cons] at hs hn
    have hg := leb_group result b.val shift hres (by omega)
    have hres2 : result + b.val % 128 * 2 ^ shift < 2 ^ (shift + 7) := by
      have h1 : b.val % 128 * 2 ^ shift ≤ 127 * 2 ^ shift := Nat.mul_le_mul_right _ (by omega)
      have h2 : 2 ^ (shift + 7) = 128 * 2 ^ shift := by rw [Nat.pow_add]; norm_num; ring
      omega
    have hbytes2 : ∀ i, i < init.length + 1 →
        (r.advance 1).io.readObj (wrap (r.advance 1).bits ((r.advance 1).off + i)) 1
          = ((init ++ [last])[i]?).map (fun b => [b]) := by
      intro i hi
      have := hbytes (i + 1) (by simp; omega)
      simp only [List.cons_append, List.getElem?_cons_succ] at this
      rw [← this]
      simp only [DWARFReader.advance, wrap, DWARFReader.bits, Nat.mod_add_mod]
      congr 2
      omega
    have hrec := ih last m (r.advance 1) (result + b.val % 128 * 2 ^ shift) (shift + 7)
      (fun c hc => hcont c (List.mem_cons_of_mem _ hc)) hlast (by omega) hres2 (by omega)
      hbytes2
    simp only [getuleb128shiftLoop, DWARFReader.getu8, h0, List.getD_cons_zero, hb, if_false, hg,
      hrec, advance_advance, lebValue, List.cons_append, List.length_cons]
    have e1 : 2 ^ (shift + 7) = 128 * 2 ^ shift := by rw [Nat.pow_add]; norm_num; ring
    have e2 : result + b.val % 128 * 2 ^ shift + lebValue (init ++ [last]) * 2 ^ (shift + 7)
        = result + (b.val % 128 + 128 * lebValue (init ++ [last])) * 2 ^ shift := by
      rw [e1]; ring
    have e3 : shift + 7 + 7 * (init.length + 1) = shift + 7 * (init.length + 1 + 1) := by omega
    have e4 : 1 + (init.length + 1) = init.length + 1 + 1 := by omega
    rw [e2, e3, e4]
    rfl

/-- C8: LEB128 decoding. For a `k`-byte encoding (`init` followed by `last`: every
byte but the last has the continuation bit 0x80, the last has not) with `7k < 64`
whose groups accumulate to `v = lebValue`, `getuleb128` returns `v`, and
`getsleb128` returns `v - 2^(7k)` if bit 0x40 of the last byte is set and `v`
otherwise; both leave the cursor `k` bytes further. -/
theorem leb128_decode (r : DWARFReader) (init : List Byte) (last : Byte)
    (hcont : ∀ b ∈ init, b.val &&& 0x80 ≠ 0) (hlast : last.val &&& 0x80 = 0)
    (hk : 7 * (init.length + 1) < 64)
    (hbytes : ∀ i, i < init.length + 1 →
      r.io.readObj (wrap r.bits (r.off + i)) 1 = ((init ++ [last])[i]?).map (fun b => [b])) :
    r.getuleb128 = .ok (lebValue (init ++ [last]), r.advance (init.length + 1))
    ∧ r.getsleb128
        = .ok ((if last.val &&& 0x40 ≠ 0 then
                  (lebValue (init ++ [last]) : Int) - 2 ^ (7 * (init.length + 1))
                else (lebValue (init ++ [last]) : Int)),
            r.advance (init.length + 1)) := by
  have hloop := getuleb128shiftLoop_value init last 16 r 0 0 hcont hlast (by omega)
    (by norm_num) (by omega) hbytes
  simp only [Nat.zero_add, Nat.pow_zero, Nat.mul_one] at hloop
  have hv := lebValue_lt (init ++ [last])
  simp only [List.length_append, List.length_singleton] at hv
  have hpow : 2 ^ (7 * (init.length + 1)) ≤ 2 ^ 63 :=
    Nat.pow_le_pow_right (by norm_num) (by omega)
  have h63 : (2 : Nat) ^ 63 = 9223372036854775808 := by norm_num
  have h64 : (2 : Nat) ^ 64 = 18446744073709551616 := by norm_num
  constructor
  · simp only [DWARFReader.getuleb128, DWARFReader.getuleb128shift, hloop]
  · simp only [DWARFReader.getsleb128, DWARFReader.getuleb128shift, hloop]
    by_cases hsign : last.val &&& 0x40 ≠ 0
    · rw [if_pos hsign]
      have hdec : decide (last.val &&& 0x40 ≠ 0) = true := decide_eq_true hsign
      rw [hdec]
      simp only [if_true]
      congr 2
      have hone : wrap 64 (1 <<< (7 * (init.length + 1))) = 2 ^ (7 * (init.length + 1)) := by
        rw [wrap, Nat.shiftLeft_eq, Nat.one_mul, Nat.mod_eq_of_lt (by omega)]
      have hneg : wrap 64 (2 ^ 64 - 2 ^ (7 * (init.length + 1)))
          = 2 ^ (7 * (init.length + 1)) * (2 ^ (64 - 7 * (init.length + 1)) - 1) := by
        have hsplit : (2 : Nat) ^ 64
            = 2 ^ (7 * (init.length + 1)) * 2 ^ (64 - 7 * (init.length + 1)) := by
          rw [← Nat.pow_add]; congr 1; omega
        rw [wrap, Nat.mod_eq_of_lt (by have := Nat.two_pow_pos (7 * (init.length + 1)); omega),
          Nat.mul_sub, Nat.mul_one, ← hsplit]
      rw [hone, hneg, Nat.lor_comm, ← Nat.mul_add_lt_is_or hv]
      have hback : 2 ^ (7 * (init.length + 1)) * (2 ^ (64 - 7 * (init.length + 1)) - 1)
          = 2 ^ 64 - 2 ^ (7 * (init.length + 1)) := by
        have hsplit : (2 : Nat) ^ 64
            = 2 ^ (7 * (init.length + 1)) * 2 ^ (64 - 7 * (init.length + 1)) := by
          rw [← Nat.pow_add]; congr 1; omega
        rw [Nat.mul_sub, Nat.mul_one, ← hsplit]
      rw [hback]
      unfold toIntMax
      have hpos := Nat.two_pow_pos (7 * (init.length + 1))
      have hmod : (2 ^ 64 - 2 ^ (7 * (init.length + 1)) + lebValue (init ++ [last])) % 2 ^ 64
          = 2 ^ 64 - 2 ^ (7 * (init.length + 1)) + lebValue (init ++ [last]) :=
        Nat.mod_eq_of_lt (by omega)
      rw [hmod, if_neg (by omega)]
      have hcast : ((2 ^ (7 * (init.length + 1)) : Nat) : Int) = 2 ^ (7 * (init.length + 1)) := by
        push_cast; rfl
      rw [← hcast]
      omega
    · rw [if_neg hsign]
      have hdec : decide (last.val &&& 0x40 ≠ 0) = false := decide_eq_false hsign
      rw [hdec]
      simp only [Bool.false_eq_true, if_false]
      congr 2
      unfold toIntMax
      rw [Nat.mod_eq_of_lt (by omega), if_pos (by omega)]

/-- Witness for C8: `e5 8e 26` decodes to 624485 unsigned and signed; `c0 bb 78`
decodes to 1973696 unsigned and -123456 signed. -/
theorem leb128_decode_witness :
    ((DWARFReader.new .amd64 (Reader.ofBytes [0xe5, 0x8e, 0x26]) 0 none).getuleb128
        = .ok (624485, (DWARFReader.new .amd64 (Reader.ofBytes [0xe5, 0x8e, 0x26]) 0 none).advance 3)
      ∧ (DWARFReader.new .amd64 (Reader.ofBytes [0xe5, 0x8e, 0x26]) 0 none).getsleb128
        = .ok (624485, (DWARFReader.new .amd64 (Reader.ofBytes [0xe5, 0x8e, 0x26]) 0 none).advance 3))
    ∧ ((DWARFReader.new .amd64 (Reader.ofBytes [0xc0, 0xbb, 0x78]) 0 none).getuleb128
        = .ok (1973696, (DWARFReader.new .amd64 (Reader.ofBytes [0xc0, 0xbb, 0x78]) 0 none).advance 3)
      ∧ (DWARFReader.new .amd64 (Reader.ofBytes [0xc0, 0xbb, 0x78]) 0 none).getsleb128
        = .ok (-123456, (DWARFReader.new .amd64 (Reader.ofBytes [0xc0, 0xbb, 0x78]) 0 none).advance 3)) :=
  ⟨leb128_decode (DWARFReader.new .amd64 (Reader.ofBytes [0xe5, 0x8e, 0x26]) 0 none)
      [0xe5, 0x8e] 0x26
      (by intro b hb
          simp only [List.mem_cons, List.mem_singleton, List.not_mem_nil, or_false] at hb
          rcases hb with rfl | rfl <;>
            exact fun h => absurd ((byte_continuation _).mp h) (by decide))
      ((byte_continuation _).mpr (by decide)) (by decide)
      (by intro i hi
          have hi3 : i < 3 := hi
          interval_cases i <;> rfl),
   leb128_decode (DWARFReader.new .amd64 (Reader.ofBytes [0xc0, 0xbb, 0x78]) 0 none)
      [0xc0, 0xbb] 0x78
      (by intro b hb
          simp only [List.mem_cons, List.mem_singleton, List.not_mem_nil, or_false] at hb
          rcases hb with rfl | rfl <;>
            exact fun h => absurd ((byte_continuation _).mp h) (by decide))
      ((byte_continuation _).mpr (by decide)) (by decide)
      (by intro i hi
          have hi3 : i < 3 := hi
          interval_cases i <;> rfl)⟩

theorem foldr_bytes_from (rc : Nat) (hrc : rc < 2 ^ 64) (bs : List Byte) :
    bs.foldr (fun b rc => wrap 64 (rc <<< 8) ||| b.val) rc
      = (rc * 256 ^ bs.length + leValue bs) % 2 ^ 64 := by
  induction bs with
  | nil =>
    simp only [List.foldr_nil, List.length_nil, Nat.pow_zero, Nat.mul_one, leValue, Nat.add_zero]
    exact (Nat.mod_eq_of_lt hrc).symm
  | cons b bs ih =>
    have hb := b.isLt
    rw [List.foldr_cons, ih]
    have hlen : (256 : Nat) ^ (bs.length + 1) = 256 ^ bs.length * 256 := Nat.pow_succ _ _
    simp only [leValue, wrap, Nat.shiftLeft_eq, List.length_cons]
    rw [hlen]
    have hmul : (rc * 256 ^ bs.length + leValue bs) % 2 ^ 64 * 2 ^ 8 % 2 ^ 64
        = 2 ^ 8 * ((rc * 256 ^ bs.length + leValue bs) % 2 ^ 56) := by
      have : (2 : Nat) ^ 64 = 2 ^ 8 * 2 ^ 56 := by norm_num
      rw [Nat.mul_comm _ (2 ^ 8), this, Nat.mul_mod_mul_left]
      congr 1
      omega
    rw [hmul, ← Nat.mul_add_lt_is_or (by omega)]
    have e : rc * (256 ^ bs.length * 256) + (b.val + 256 * leValue bs)
        = 256 * (rc * 256 ^ bs.length + leValue bs) + b.val := by ring
    rw [e]
    omega

theorem getuintLoop_from (rc : Nat) (hrc : rc < 2 ^ 64) (bytes : List Byte) :
    getuintLoop bytes bytes.length (List.range bytes.length) rc
      = (rc * 256 ^ bytes.length + leValue bytes) % 2 ^ 64 := by
  rw [getuintLoop_eq_foldl, range_map_reverse, List.foldl_reverse, foldr_bytes_from rc hrc]

theorem leValue_concat (init : List Byte) (last : Byte) :
    leValue (init ++ [last]) = leValue init + last.val * 256 ^ init.length := by
  induction init with
  | nil => simp [leValue]
  | cons b bs ih =>
    have e : leValue (b :: bs ++ [last]) = b.val + 256 * leValue (bs ++ [last]) := rfl
    have e2 : leValue (b :: bs) = b.val + 256 * leValue bs := rfl
    rw [e, e2, ih, List.length_cons, Nat.pow_succ]
    ring

theorem leValue_concat_bounds (init : List Byte) (last : Byte) :
    leValue (init ++ [last]) < 256 ^ (init.length + 1)
    ∧ (128 ≤ last.val → 256 ^ (init.length + 1) ≤ 2 * leValue (init ++ [last]))
    ∧ (last.val < 128 → 2 * leValue (init ++ [last]) < 256 ^ (init.length + 1)) := by
  have hl := last.isLt
  have hi := leValue_lt init
  have hcat := leValue_concat init last
  have hM : (256 : Nat) ^ (init.length + 1) = 256 * 256 ^ init.length := by
    rw [Nat.pow_succ]; ring
  have hup : last.val * 256 ^ init.length ≤ 255 * 256 ^ init.length :=
    Nat.mul_le_mul_right _ (by omega)
  refine ⟨by omega, ?_, ?_⟩
  · intro hge
    have hlow : 128 * 256 ^ init.length ≤ last.val * 256 ^ init.length :=
      Nat.mul_le_mul_right _ hge
    omega
  · intro hlt
    have hlow : last.val * 256 ^ init.length ≤ 127 * 256 ^ init.length :=
      Nat.mul_le_mul_right _ (by omega)
    omega

theorem getint_sign_extend (init : List Byte) (last : Byte) (h8 : init.length + 1 ≤ 8) :
    (last.val &&& 0x80 ≠ 0 →
      toIntMax (((2 ^ 64 - 1) * 256 ^ (init.length + 1) + leValue (init ++ [last])) % 2 ^ 64)
        = (leValue (init ++ [last]) : Int) - 2 ^ (8 * (init.length + 1)))
    ∧ (last.val &&& 0x80 = 0 →
      toIntMax ((0 * 256 ^ (init.length + 1) + leValue (init ++ [last])) % 2 ^ 64)
        = (leValue (init ++ [last]) : Int))
    ∧ leValue (init ++ [last]) < 2 ^ 64 := by
  obtain ⟨hlt, hhi, hlo⟩ := leValue_concat_bounds init last
  have hM8 : (256 : Nat) ^ (init.length + 1) ≤ 256 ^ 8 :=
    Nat.pow_le_pow_right (by norm_num) h8
  have h256 : (256 : Nat) ^ 8 = 18446744073709551616 := by norm_num
  have h64 : (2 : Nat) ^ 64 = 18446744073709551616 := by norm_num
  have h63 : (2 : Nat) ^ 63 = 9223372036854775808 := by norm_num
  have hi64 : (2 : Int) ^ 64 = 18446744073709551616 := by norm_num
  have hcast : ((2 : Int) ^ (8 * (init.length + 1))) = ((256 ^ (init.length + 1) : Nat) : Int) := by
    rw [pow_mul]; norm_num
  rw [hcast, h64]
  unfold toIntMax
  rw [h64, h63, hi64]
  generalize 256 ^ (init.length + 1) = M at *
  generalize leValue (init ++ [last]) = L at *
  refine ⟨?_, ?_, by omega⟩
  · intro hs
    have hge : 128 ≤ last.val := by
      by_contra hcon
      exact hs ((byte_continuation last).mpr (by omega))
    have h1 := hhi hge
    have hmod : ((18446744073709551616 - 1) * M + L) % 18446744073709551616
        = 18446744073709551616 - M + L := by omega
    rw [hmod, Nat.mod_eq_of_lt (by omega), if_neg (by omega)]
    omega
  · intro hs
    have h1 := hlo ((byte_continuation last).mp hs)
    rw [Nat.zero_mul, Nat.zero_add, Nat.mod_eq_of_lt (by omega), Nat.mod_eq_of_lt (by omega),
      if_pos (by omega)]

/-- C11: signed variable-width read. For `1 ≤ len ≤ 8` and any `len` bytes `bs` at the
cursor, `getuint(len)` returns their little-endian value `u` and `getint(len)`
returns `u - 2^(8*len)` when the top bit of the last byte is set and `u` otherwise;
when the bytes cannot be read both fail; `getint` fails for `len < 1` and for
`len > 16`. -/
theorem getint_value (r : DWARFReader) :
    (∀ (len : Int) (bs : List Byte), 1 ≤ len → len ≤ 8 →
      r.io.readObj r.off len.toNat = some bs →
      r.getuint len = .ok (leValue bs, r.advanceInt len)
      ∧ r.getint len
          = .ok ((if (bs.getD (len.toNat - 1) 0).val &&& 0x80 ≠ 0 then
                    (leValue bs : Int) - 2 ^ (8 * len.toNat)
                  else (leValue bs : Int)), r.advanceInt len))
    ∧ (∀ len : Int, 1 ≤ len → len ≤ 8 → r.io.readObj r.off len.toNat = none →
      r.getuint len = .error .incompleteRead ∧ r.getint len = .error .incompleteRead)
    ∧ (∀ len : Int, (len < 1 ∨ 16 < len) → r.getint len = .error (.intSize len)) := by
  have hcount : ∀ len : Int, 1 ≤ len → len ≤ 8 → (len % 2 ^ r.bits).toNat = len.toNat := by
    intro len h1 h8
    have hpow : (2 : Int) ^ 32 ≤ 2 ^ r.bits := by
      unfold DWARFReader.bits Arch.bits Arch.addrBytes
      cases r.arch <;> norm_num
    rw [Int.emod_eq_of_lt (by omega) (by norm_num at hpow; omega)]
  refine ⟨?_, ?_, ?_⟩
  · intro len bs h1 h8 hread
    have hlen : bs.length = len.toNat := readObj_length r.io r.off _ bs hread
    have hnot : ¬ len > 16 := by omega
    have hnot2 : ¬ (len > 16 ∨ len < 1) := by omega
    rcases List.eq_nil_or_concat bs with hnil | ⟨init, last, hcat⟩
    · rw [hnil] at hlen; simp at hlen; omega
    · rw [List.concat_eq_append] at hcat
      have hlen2 : init.length + 1 = len.toNat := by
        rw [← hlen, hcat]; simp
      have h8n : init.length + 1 ≤ 8 := by omega
      obtain ⟨hneg, hpos, hlt⟩ := getint_sign_extend init last h8n
      have hlast : bs.getD (len.toNat - 1) 0 = last := by
        rw [hcat, ← hlen2, Nat.add_sub_cancel, List.getD_eq_getElem?_getD]
        simp
      constructor
      · unfold DWARFReader.getuint
        rw [if_neg hnot, hcount len h1 h8, hread]
        simp only []
        rw [← hlen, getuintLoop_value, hcat, Nat.mod_eq_of_lt hlt]
      · unfold DWARFReader.getint
        rw [if_neg hnot2, hcount len h1 h8, hread]
        simp only []
        rw [hlast, ← hlen, getuintLoop_from _ (by split <;> norm_num), hcat]
        have hl3 : (init ++ [last]).length = init.length + 1 := by simp
        rw [hl3]
        by_cases hs : last.val &&& 0x80 ≠ 0
        · rw [if_pos hs, if_pos hs, hneg hs]
        · rw [if_neg hs, if_neg hs, hpos (by simpa using hs)]
  · intro len h1 h8 hread
    have hnot : ¬ len > 16 := by omega
    have hnot2 : ¬ (len > 16 ∨ len < 1) := by omega
    constructor
    · unfold DWARFReader.getuint
      rw [if_neg hnot, hcount len h1 h8, hread]
    · unfold DWARFReader.getint
      rw [if_neg hnot2, hcount len h1 h8, hread]
  · intro len hlen
    unfold DWARFReader.getint
    rw [if_pos (by omega)]

/-- Witness for C11: the two bytes `fe ff` read as the unsigned 0xfffe and as the signed
-2; lengths 0 and 17 are rejected by `getint`. -/
theorem getint_value_witness :
    (DWARFReader.new .amd64 (Reader.ofBytes [0xfe, 0xff, 0x01]) 0 none).getuint 2
      = .ok (0xfffe, (DWARFReader.new .amd64 (Reader.ofBytes [0xfe, 0xff, 0x01]) 0 none).advanceInt 2)
    ∧ (DWARFReader.new .amd64 (Reader.ofBytes [0xfe, 0xff, 0x01]) 0 none).getint 2
      = .ok (-2, (DWARFReader.new .amd64 (Reader.ofBytes [0xfe, 0xff, 0x01]) 0 none).advanceInt 2)
    ∧ (DWARFReader.new .amd64 (Reader.ofBytes [0xfe, 0xff, 0x01]) 0 none).getint 0
      = .error (.intSize 0)
    ∧ (DWARFReader.new .amd64 (Reader.ofBytes [0xfe, 0xff, 0x01]) 0 none).getint 17
      = .error (.intSize 17) :=
  have h := getint_value (DWARFReader.new .amd64 (Reader.ofBytes [0xfe, 0xff, 0x01]) 0 none)
  have h2 := h.1 2 [0xfe, 0xff] (by decide) (by decide) rfl
  ⟨h2.1, h2.2, h.2.2 0 (Or.inl (by decide)), h.2.2 17 (Or.inr (by decide))⟩

theorem count_of_len (r : DWARFReader) (len : Int) (h0 : 0 ≤ len) (h16 : len ≤ 16) :
    (len % 2 ^ r.bits).toNat = len.toNat := by
  have hpow : (2 : Int) ^ 32 ≤ 2 ^ r.bits := by
    unfold DWARFReader.bits Arch.bits Arch.addrBytes
    cases r.arch <;> norm_num
  rw [Int.emod_eq_of_lt h0 (by norm_num at hpow; omega)]

theorem ofBytes_inBounds (data : List Byte) : (Reader.ofBytes data).InBounds := by
  intro off len bs h
  simp only [Reader.ofBytes, Option.some.injEq] at h
  subst h
  by_cases hoff : off < data.length
  · right
    show off + ((data.drop off).take len).length ≤ data.length
    simp only [List.length_take, List.length_drop]
    omega
  · left
    rw [List.drop_of_length_le (by omega)]
    simp

theorem readObj_past_size (io : Reader) (hio : io.InBounds) (off n : Nat) (hn : 1 ≤ n)
    (hpast : off + n > io.size) : io.readObj off n = none := by
  cases h : io.readObj off n with
  | none => rfl
  | some bs =>
    exfalso
    have hlen := readObj_length io off n bs h
    unfold Reader.readObj at h
    cases hr : io.read off n with
    | none => rw [hr] at h; cases h
    | some got =>
      rw [hr] at h
      simp only [] at h
      split at h
      · cases h
        rcases hio off n bs hr with hnil | hle
        · rw [hnil] at hlen; simp at hlen; omega
        · omega
      · cases h

/-- C12 (amended): reads past the end of the byte source fail. Over a source that
hands out no byte at or beyond its size, every read of `n ≥ 1` bytes with
`off + n > size` fails with the incomplete-read error (`getu8`, `gets8`, `getu16`,
`getu32`, and `getuint`, `getint` for the lengths they accept); this is the case of
a read past the limit when the limit is the source size, the default. The limit
itself is not consulted: changing it changes no read. -/
theorem reads_past_source_fail (r : DWARFReader) (hio : r.io.InBounds) :
    (r.off + 1 > r.io.size →
      r.getu8 = .error .incompleteRead ∧ r.gets8 = .error .incompleteRead)
    ∧ (r.off + 2 > r.io.size → r.getu16 = .error .incompleteRead)
    ∧ (r.off + 4 > r.io.size → r.getu32 = .error .incompleteRead)
    ∧ (∀ len : Int, 1 ≤ len → len ≤ 16 → r.off + len > r.io.size →
        r.getuint len = .error .incompleteRead ∧ r.getint len = .error .incompleteRead)
    ∧ (∀ e : Nat,
        ({ r with end_ := e } : DWARFReader).getu8
          = (r.getu8).map (fun x => (x.1, { x.2 with end_ := e }))
        ∧ ({ r with end_ := e } : DWARFReader).gets8
          = (r.gets8).map (fun x => (x.1, { x.2 with end_ := e }))
        ∧ ({ r with end_ := e } : DWARFReader).getu16
          = (r.getu16).map (fun x => (x.1, { x.2 with end_ := e }))
        ∧ ({ r with end_ := e } : DWARFReader).getu32
          = (r.getu32).map (fun x => (x.1, { x.2 with end_ := e }))
        ∧ (∀ len : Int, ({ r with end_ := e } : DWARFReader).getuint len
          = (r.getuint len).map (fun x => (x.1, { x.2 with end_ := e })))
        ∧ (∀ len : Int, ({ r with end_ := e } : DWARFReader).getint len
          = (r.getint len).map (fun x => (x.1, { x.2 with end_ := e })))) := by
  refine ⟨?_, ?_, ?_, ?_, ?_⟩
  · intro h
    have hr := readObj_past_size r.io hio r.off 1 (by omega) h
    constructor
    · simp only [DWARFReader.getu8, hr]
    · simp only [DWARFReader.gets8, hr]
  · intro h
    have hr := readObj_past_size r.io hio r.off 2 (by omega) h
    simp only [DWARFReader.getu16, hr]
  · intro h
    have hr := readObj_past_size r.io hio r.off 4 (by omega) h
    simp only [DWARFReader.getu32, hr]
  · intro len h1 h16 h
    have hr := readObj_past_size r.io hio r.off len.toNat (by omega) (by omega)
    have hc := count_of_len r len (by omega) h16
    constructor
    · unfold DWARFReader.getuint
      rw [if_neg (by omega), hc, hr]
    · unfold DWARFReader.getint
      rw [if_neg (by omega), hc, hr]
  · intro e
    refine ⟨?_, ?_, ?_, ?_, ?_, ?_⟩
    · unfold DWARFReader.getu8
      cases r.io.readObj r.off 1 <;> rfl
    · unfold DWARFReader.gets8
      cases r.io.readObj r.off 1 <;> rfl
    · unfold DWARFReader.getu16
      cases r.io.readObj r.off 2 <;> rfl
    · unfold DWARFReader.getu32
      cases r.io.readObj r.off 4 <;> rfl
    · intro len
      unfold DWARFReader.getuint
      by_cases h : len > 16
      · rw [if_pos h, if_pos h]; rfl
      · rw [if_neg h, if_neg h]
        show (match r.io.readObj r.off (len % 2 ^ r.bits).toNat with
          | none => _ | some bytes => _) = _
        cases r.io.readObj r.off (len % 2 ^ r.bits).toNat <;> rfl
    · intro len
      unfold DWARFReader.getint
      by_cases h : len > 16 ∨ len < 1
      · rw [if_pos h, if_pos h]; rfl
      · rw [if_neg h, if_neg h]
        show (match r.io.readObj r.off (len % 2 ^ r.bits).toNat with
          | none => _ | some bytes => _) = _
        cases r.io.readObj r.off (len % 2 ^ r.bits).toNat <;> rfl

/-- Witness for C12 (amended): a 4-byte read at offset 0 of a three-byte source fails. -/
theorem reads_past_source_fail_witness :
    shortReader.off + 4 > shortReader.io.size
    ∧ shortReader.getu32 = .error .incompleteRead :=
  ⟨by decide, (reads_past_source_fail shortReader (ofBytes_inBounds _)).2.2.1 (by decide)⟩

/-- Counterexample to C12 as stated: a cursor at offset 0 with the explicit limit 2
over an 8-byte source reads 4 bytes, 2 of them past the limit, and the read at the
limit itself succeeds as well. -/
theorem read_past_explicit_limit :
    limitedReader.getOffset = 0 ∧ limitedReader.getLimit = 2 ∧ limitedReader.io.size = 8
    ∧ limitedReader.getOffset + 4 > limitedReader.getLimit
    ∧ limitedReader.getu32 = .ok (0x04030201, limitedReader.advance 4)
    ∧ limitedReader.getuint 4 = .ok (0x04030201, limitedReader.advanceInt 4)
    ∧ (limitedReader.advance 2).getOffset = limitedReader.getLimit
    ∧ (limitedReader.advance 2).getu8 = .ok (3, limitedReader.advance 3) := by
  refine ⟨rfl, rfl, rfl, by decide, rfl, rfl, rfl, rfl⟩

/-- C13, evaluation at the failing input: on a cursor at offset 0 with limit 2,
`skip(5)` returns with the offset at 5, beyond the limit, whereas `setOffset(5)` fails
its assertion `end >= off_`. -/
theorem skip_ignores_limit :
    limitedReader.getOffset = 0 ∧ limitedReader.getLimit = 2
    ∧ (limitedReader.skip 5).getOffset = 5
    ∧ (limitedReader.skip 5).getLimit = 2
    ∧ ¬ (limitedReader.skip 5).getOffset ≤ (limitedReader.skip 5).getLimit
    ∧ limitedReader.setOffset 5 = none
    ∧ (limitedReader.setOffset 2).map DWARFReader.getOffset = some 2 := by
  refine ⟨rfl, rfl, rfl, rfl, by decide, rfl, rfl⟩

theorem consumes_of_advance {α : Type} (r : DWARFReader) (n : Nat)
    (res : Except Exn (α × DWARFReader))
    (h : ∀ v r1, res = .ok (v, r1) → r1 = r.advance n) : r.Consumes res n := by
  constructor
  · intro v r1 hres
    have hr := h v r1 hres
    subst hr
    refine ⟨rfl, ?_, rfl, rfl, ?_⟩
    · intro hlt
      exact Nat.mod_eq_of_lt hlt
    · rw [hres]; rfl
  · intro e hres
    rw [hres]; rfl

/-- C14: cursor atomicity. Each of `getu8`, `gets8`, `getu16`, `getu32`,
`getuint(len)`, `getint(len)` and `getstring` consumes, when it returns, exactly 1, 1,
2, 4, `len`, `len` and string length + 1 bytes: the offset becomes `off + n` (as an
`Elf::Off`), the limit is unchanged. When it throws (the underlying read fails or
`len` is rejected) the cursor is unchanged. -/
theorem cursor_atomicity (r : DWARFReader) :
    r.Consumes r.getu8 1 ∧ r.Consumes r.gets8 1 ∧ r.Consumes r.getu16 2
    ∧ r.Consumes r.getu32 4
    ∧ (∀ len : Int, 0 ≤ len → r.Consumes (r.getuint len) len.toNat)
    ∧ (∀ len : Int, 0 ≤ len → r.Consumes (r.getint len) len.toNat)
    ∧ (∀ len : Int, len < 0 →
        (∀ e, r.getuint len = .error e → r.after (r.getuint len) = r)
        ∧ r.getint len = .error (.intSize len) ∧ r.after (r.getint len) = r)
    ∧ (∀ s r1, r.getstring = .ok (s, r1) → r.Consumes r.getstring (s.length + 1))
    ∧ (∀ e, r.getstring = .error e → r.after r.getstring = r) := by
  refine ⟨?_, ?_, ?_, ?_, ?_, ?_, ?_, ?_, ?_⟩
  · apply consumes_of_advance
    intro v r1 h
    unfold DWARFReader.getu8 at h
    split at h
    · cases h
    · cases h; rfl
  · apply consumes_of_advance
    intro v r1 h
    unfold DWARFReader.gets8 at h
    split at h
    · cases h
    · cases h; rfl
  · apply consumes_of_advance
    intro v r1 h
    unfold DWARFReader.getu16 at h
    split at h
    · cases h
    · cases h; rfl
  · apply consumes_of_advance
    intro v r1 h
    unfold DWARFReader.getu32 at h
    split at h
    · cases h
    · cases h; rfl
  · intro len h0
    apply consumes_of_advance
    intro v r1 h
    unfold DWARFReader.getuint at h
    split at h
    · cases h
    · rename_i h16
      split at h
      · cases h
      · cases h
        unfold DWARFReader.advanceInt
        have hc := count_of_len r len h0 (by omega)
        unfold DWARFReader.bits at hc
        rw [hc]
  · intro len h0
    apply consumes_of_advance
    intro v r1 h
    unfold DWARFReader.getint at h
    split at h
    · cases h
    · rename_i h16
      split at h
      · cases h
      · cases h
        unfold DWARFReader.advanceInt
        have hc := count_of_len r len h0 (by omega)
        unfold DWARFReader.bits at hc
        rw [hc]
  · intro len hneg
    refine ⟨?_, ?_, ?_⟩
    · intro e h; rw [h]; rfl
    · unfold DWARFReader.getint
      rw [if_pos (by omega)]
    · unfold DWARFReader.getint
      rw [if_pos (by omega)]
      rfl
  · intro s r1 h
    apply consumes_of_advance
    intro v r2 h2
    unfold DWARFReader.getstring at h h2
    split at h
    · cases h
    · rename_i s0 hs
      rw [hs] at h2
      cases h
      cases h2
      rfl
  · intro e h
    rw [h]; rfl

/-- Witness for C14: on the three-byte source a 2-byte read leaves the cursor at 2
with the limit still 3, and the failing 4-byte read leaves the cursor where it was. -/
theorem cursor_atomicity_witness :
    (shortReader.after shortReader.getu16).off = 2
    ∧ (shortReader.after shortReader.getu16).end_ = 3
    ∧ shortReader.getu32 = .error .incompleteRead
    ∧ shortReader.after shortReader.getu32 = shortReader :=
  have h := cursor_atomicity shortReader
  have h2 := h.2.2.1.1 0x0201 (shortReader.advance 2) rfl
  ⟨by rw [h2.2.2.2.2]; exact h2.1.trans (by decide), by rw [h2.2.2.2.2]; exact h2.2.2.1,
    rfl, h.2.2.2.1.2 .incompleteRead rfl⟩

theorem readStringLoop_value (io : Reader) :
    ∀ (s : List Byte) (fuel off : Nat), (∀ b ∈ s, b.val ≠ 0) → s.length < fuel →
      (∀ i, i < s.length + 1 →
        io.readObj (off + i) 1 = ((s ++ [0])[i]?).map (fun b => [b])) →
      readStringLoop io fuel off = some s := by
  intro s
  induction s with
  | nil =>
    intro fuel off _ hfuel hbytes
    obtain ⟨m, rfl⟩ : ∃ m, fuel = m + 1 := ⟨fuel - 1, by simp at hfuel; omega⟩
    have h0 := hbytes 0 (by simp)
    simp only [Nat.add_zero, List.nil_append, List.getElem?_cons_zero, Option.map_some'] at h0
    simp [readStringLoop, h0]
  | cons b s ih =>
    intro fuel off hnz hfuel hbytes
    obtain ⟨m, rfl⟩ : ∃ m, fuel = m + 1 := ⟨fuel - 1, by simp at hfuel; omega⟩
    have h0 := hbytes 0 (by simp)
    simp only [Nat.add_zero, List.cons_append, List.getElem?_cons_zero, Option.map_some'] at h0
    have hb : b.val ≠ 0 := hnz b (List.mem_cons_self _ _)
    have hrec := ih m (off + 1) (fun c hc => hnz c (List.mem_cons_of_mem _ hc))
      (by simp at hfuel; omega)
      (by
        intro i hi
        have := hbytes (i + 1) (by simp; omega)
        simp only [List.cons_append, List.getElem?_cons_succ] at this
        rw [← this]
        congr 1
        omega)
    simp [readStringLoop, h0, hb, hrec]

theorem getstring_at (r : DWARFReader) (s : List Byte)
    (hword : r.io.size < 2 ^ r.bits) (hnz : ∀ b ∈ s, b.val ≠ 0)
    (hsize : r.off + s.length < r.io.size)
    (hbytes : ∀ i, i < s.length + 1 →
      r.io.readObj (r.off + i) 1 = ((s ++ [0])[i]?).map (fun b => [b])) :
    r.getstring = .ok (s, r.advance (s.length + 1))
    ∧ (r.advance (s.length + 1)).off = r.off + s.length + 1 := by
  constructor
  · unfold DWARFReader.getstring Reader.readString
    rw [readStringLoop_value r.io s _ r.off hnz (by omega) hbytes]
  · show (r.off + (s.length + 1)) % 2 ^ r.arch.bits = _
    unfold DWARFReader.bits at hword
    rw [Nat.mod_eq_of_lt (by omega)]
    omega

/-- C15: string read. When the source holds the non-NUL bytes `s` followed by a NUL at
the cursor, `getstring` returns exactly `s` and leaves the cursor on the byte after
that NUL (`off + |s| + 1`; by 1 for the empty string). A second `getstring` then
returns the next NUL-terminated string `t` and leaves the cursor after its NUL. -/
theorem getstring_value (r : DWARFReader) (s : List Byte)
    (hword : r.io.size < 2 ^ r.bits) (hnz : ∀ b ∈ s, b.val ≠ 0)
    (hsize : r.off + s.length < r.io.size)
    (hbytes : ∀ i, i < s.length + 1 →
      r.io.readObj (r.off + i) 1 = ((s ++ [0])[i]?).map (fun b => [b])) :
    r.getstring = .ok (s, r.advance (s.length + 1))
    ∧ (r.advance (s.length + 1)).off = r.off + s.length + 1
    ∧ (s = [] → (r.advance (s.length + 1)).off = r.off + 1)
    ∧ (∀ t : List Byte, (∀ b ∈ t, b.val ≠ 0) → r.off + s.length + 1 + t.length < r.io.size →
        (∀ i, i < t.length + 1 →
          r.io.readObj (r.off + s.length + 1 + i) 1 = ((t ++ [0])[i]?).map (fun b => [b])) →
        (r.advance (s.length + 1)).getstring
          = .ok (t, (r.advance (s.length + 1)).advance (t.length + 1))
        ∧ ((r.advance (s.length + 1)).advance (t.length + 1)).off
          = r.off + s.length + 1 + t.length + 1) := by
  obtain ⟨h1, h2⟩ := getstring_at r s hword hnz hsize hbytes
  refine ⟨h1, h2, ?_, ?_⟩
  · intro hs
    rw [h2, hs]; rfl
  · intro t htnz htsize htbytes
    have h3 := getstring_at (r.advance (s.length + 1)) t hword htnz
      (by rw [h2]; exact htsize) (by rw [h2]; exact htbytes)
    rw [h2] at h3
    exact h3

/-- Witness for C15: over "ab", NUL, NUL, "cd", NUL the first `getstring` returns "ab"
and leaves the cursor at 3; the second returns the empty string and leaves it at 4. -/
theorem getstring_value_witness :
    stringReader.getstring = .ok ([0x61, 0x62], stringReader.advance 3)
    ∧ (stringReader.advance 3).off = 3
    ∧ (stringReader.advance 3).getstring = .ok ([], (stringReader.advance 3).advance 1)
    ∧ ((stringReader.advance 3).advance 1).off = 4 :=
  have h := getstring_value stringReader [0x61, 0x62]
    (by show (7 : Nat) < 2 ^ 64; norm_num)
    (by intro b hb
        simp only [List.mem_cons, List.mem_singleton, List.not_mem_nil, or_false] at hb
        rcases hb with rfl | rfl <;> decide)
    (by show (0 % 2 ^ 64 + 2 : Nat) < 7; norm_num)
    (by intro i hi
        have hi3 : i < 3 := hi
        interval_cases i <;> rfl)
  have h2 := h.2.2.2 [] (by intro b hb; cases hb)
    (by show (0 % 2 ^ 64 + 2 + 1 + 0 : Nat) < 7; norm_num)
    (by intro i hi
        have hi1 : i < 1 := hi
        interval_cases i
        rfl)
  ⟨h.1, h.2.1, h2.1, h2.2⟩

/-! ## Properties of the lookups -/

theorem segmentHit_eq_any (bits objAddr : Nat) (segs : List Phdr) :
    segmentHit bits objAddr segs
      = segs.any (fun phdr =>
          decide (phdr.p_vaddr ≤ objAddr ∧ objAddr < wrap bits (phdr.p_vaddr + phdr.p_memsz))) := by
  induction segs with
  | nil => rfl
  | cons phdr rest ih =>
    simp only [segmentHit, List.any_cons, ih]
    by_cases h : objAddr ≥ phdr.p_vaddr ∧ objAddr < wrap bits (phdr.p_vaddr + phdr.p_memsz)
    · rw [if_pos h]
      have : decide (phdr.p_vaddr ≤ objAddr
          ∧ objAddr < wrap bits (phdr.p_vaddr + phdr.p_memsz)) = true := decide_eq_true h
      rw [this]; rfl
    · rw [if_neg h]
      have : decide (phdr.p_vaddr ≤ objAddr
          ∧ objAddr < wrap bits (phdr.p_vaddr + phdr.p_memsz)) = false := decide_eq_false h
      rw [this]; rfl

theorem findObjectIn_eq_ref (bits addr loadAddr : Nat) (objects : List LoadedObject) :
    findObjectIn bits addr loadAddr objects = findObjectRef bits addr loadAddr objects := by
  induction objects with
  | nil => rfl
  | cons c rest ih =>
    unfold findObjectIn findObjectRef
    rw [List.find?_cons]
    have hhit : segmentHit bits (wsub bits addr c.loadAddr) c.object.loadSegments
        = hasSegmentAt bits addr c := segmentHit_eq_any _ _ _
    rw [hhit]
    cases hc : hasSegmentAt bits addr c with
    | true => simp
    | false =>
      simp only [Bool.false_eq_true, if_false]
      rw [ih]
      rfl

/-- C16: containing-object lookup. `Process::findObject` returns the first object in
load order that has a `PT_LOAD` segment with `p_vaddr <= addr - loadAddr <
p_vaddr + p_memsz` (word-sized unsigned arithmetic) and reports its load address; it
returns null exactly when no loaded object has such a segment, and then leaves
`*loadAddr` as it was. Whenever the result is non-null, `addr` minus the reported
relocation lies in a loadable segment of the returned object. -/
theorem findObject_first_containing (b : Build) (p : Process) (addr loadAddr : Nat) :
    p.findObject b addr loadAddr = findObjectRef b.arch.bits addr loadAddr p.objects
    ∧ (∀ obj reloc, p.findObject b addr loadAddr = (some obj, reloc) →
        ∃ pre c post, p.objects = pre ++ c :: post
          ∧ (∀ x ∈ pre, hasSegmentAt b.arch.bits addr x = false)
          ∧ hasSegmentAt b.arch.bits addr c = true
          ∧ obj = c.object ∧ reloc = c.loadAddr)
    ∧ ((p.findObject b addr loadAddr).1 = none
        ↔ ∀ c ∈ p.objects, hasSegmentAt b.arch.bits addr c = false)
    ∧ ((p.findObject b addr loadAddr).1 = none → (p.findObject b addr loadAddr).2 = loadAddr)
    ∧ (∀ obj reloc, p.findObject b addr loadAddr = (some obj, reloc) →
        ∃ phdr ∈ obj.loadSegments,
          phdr.p_vaddr ≤ wsub b.arch.bits addr reloc
          ∧ wsub b.arch.bits addr reloc < wrap b.arch.bits (phdr.p_vaddr + phdr.p_memsz)) := by
  have href : p.findObject b addr loadAddr
      = findObjectRef b.arch.bits addr loadAddr p.objects :=
    findObjectIn_eq_ref _ _ _ _
  have hsome : ∀ obj reloc, p.findObject b addr loadAddr = (some obj, reloc) →
      ∃ pre c post, p.objects = pre ++ c :: post
        ∧ (∀ x ∈ pre, hasSegmentAt b.arch.bits addr x = false)
        ∧ hasSegmentAt b.arch.bits addr c = true
        ∧ obj = c.object ∧ reloc = c.loadAddr := by
    intro obj reloc h
    rw [href] at h
    unfold findObjectRef at h
    cases hf : p.objects.find? (hasSegmentAt b.arch.bits addr) with
    | none => rw [hf] at h; cases h
    | some c =>
      rw [hf] at h
      simp only [Prod.mk.injEq, Option.some.injEq] at h
      obtain ⟨hc, pre, post, hsplit, hpre⟩ := List.find?_eq_some.mp hf
      refine ⟨pre, c, post, hsplit, ?_, hc, h.1.symm, h.2.symm⟩
      intro x hx
      have := hpre x hx
      simpa using this
  refine ⟨href, hsome, ?_, ?_, ?_⟩
  · rw [href]
    unfold findObjectRef
    cases hf : p.objects.find? (hasSegmentAt b.arch.bits addr) with
    | none =>
      simp only [true_iff]
      intro c hc
      have := List.find?_eq_none.mp hf c hc
      simpa using this
    | some c =>
      constructor
      · intro h; cases h
      intro hall
      exfalso
      have hc := List.find?_some hf
      have hmem := List.mem_of_find?_eq_some hf
      rw [hall c hmem] at hc
      cases hc
  · rw [href]
    unfold findObjectRef
    cases hf : p.objects.find? (hasSegmentAt b.arch.bits addr) with
    | none => intro _; rfl
    | some c => intro h; cases h
  · intro obj reloc h
    obtain ⟨pre, c, post, _, _, hc, rfl, rfl⟩ := hsome obj reloc h
    unfold hasSegmentAt at hc
    obtain ⟨phdr, hmem, hdec⟩ := List.any_eq_true.mp hc
    exact ⟨phdr, hmem, of_decide_eq_true hdec⟩

/-- Witness for C16: in the sample signal process the address 0x1500 lies in the C
library loaded at 0, and 0x9000 lies in no object, which leaves the relocation 7 that
was passed in. -/
theorem findObject_first_containing_witness :
    ((signalProcess none none).findObject i386Build 0x1500 7).1.map (fun o => o.name)
      = some "libc.so.6"
    ∧ ((signalProcess none none).findObject i386Build 0x1500 7).2 = 0
    ∧ (signalProcess none none).findObject i386Build 0x9000 7
      = findObjectRef 32 0x9000 7 (signalProcess none none).objects
    ∧ ((signalProcess none none).findObject i386Build 0x9000 7).1.isNone = true
    ∧ ((signalProcess none none).findObject i386Build 0x9000 7).2 = 7 :=
  ⟨rfl, rfl, (findObject_first_containing i386Build (signalProcess none none) 0x9000 7).1,
    rfl, (findObject_first_containing i386Build (signalProcess none none) 0x9000 7).2.2.2.1 rfl⟩

theorem rangeHit_eq_any (objIp : Nat) (ranges : List ARange) :
    rangeHit objIp ranges
      = ranges.any (fun range =>
          decide (range.start ≤ objIp ∧ objIp ≤ wrap 64 (range.start + range.length))) := by
  induction ranges with
  | nil => rfl
  | cons range rest ih =>
    simp only [rangeHit, List.any_cons, ih]
    by_cases h : objIp ≥ range.start ∧ objIp ≤ wrap 64 (range.start + range.length)
    · rw [if_pos h]
      have : decide (range.start ≤ objIp
          ∧ objIp ≤ wrap 64 (range.start + range.length)) = true := decide_eq_true h
      rw [this]; rfl
    · rw [if_neg h]
      have : decide (range.start ≤ objIp
          ∧ objIp ≤ wrap 64 (range.start + range.length)) = false := decide_eq_false h
      rw [this]; rfl

/-- C20: selection of the candidate units from the address-range tables (the value
of `units` in `Process::dumpStackText` when `hasRanges()` holds). Going through the
range sets in order, the unit at `debugInfoOffset` of a set is added exactly once
if and only if some range of the set satisfies `start <= objIp <= start + length`;
sets without such a range contribute nothing. The upper bound is inclusive: the
address `start + length` itself selects the unit. -/
theorem units_for_ranges (dwarf : Info) (objIp : Nat) :
    (∀ sets : List ARangeSet,
      unitsForRanges dwarf objIp sets
        = ((sets.filter (rangeSetSelects objIp)).map
            (fun rangeset => dwarf.getUnit rangeset.debugInfoOffset)))
    ∧ (∀ rangeset : ARangeSet,
        unitsForRanges dwarf objIp [rangeset]
          = if rangeSetSelects objIp rangeset then [dwarf.getUnit rangeset.debugInfoOffset]
            else [])
    ∧ (∀ (rangeset : ARangeSet) (range : ARange), range ∈ rangeset.ranges →
        range.start + range.length < 2 ^ 64 →
        rangeSetSelects (range.start + range.length) rangeset = true
        ∧ unitsForRanges dwarf (range.start + range.length) [rangeset]
            = [dwarf.getUnit rangeset.debugInfoOffset]) := by
  have hall : ∀ sets : List ARangeSet,
      unitsForRanges dwarf objIp sets
        = ((sets.filter (rangeSetSelects objIp)).map
            (fun rangeset => dwarf.getUnit rangeset.debugInfoOffset)) := by
    intro sets
    induction sets with
    | nil => rfl
    | cons rangeset rest ih =>
      have hhit : rangeHit objIp rangeset.ranges = rangeSetSelects objIp rangeset :=
        rangeHit_eq_any _ _
      unfold unitsForRanges
      rw [hhit, List.filter_cons]
      cases hs : rangeSetSelects objIp rangeset with
      | true => simp [ih]
      | false => simp [ih]
  have hone : ∀ (ip : Nat) (rangeset : ARangeSet),
      unitsForRanges dwarf ip [rangeset]
        = if rangeSetSelects ip rangeset then [dwarf.getUnit rangeset.debugInfoOffset]
          else [] := by
    intro ip rangeset
    have hhit : rangeHit ip rangeset.ranges = rangeSetSelects ip rangeset :=
      rangeHit_eq_any _ _
    simp only [unitsForRanges, hhit]
  refine ⟨hall, hone objIp, ?_⟩
  intro rangeset range hmem hfit
  have hsel : rangeSetSelects (range.start + range.length) rangeset = true := by
    unfold rangeSetSelects
    apply List.any_eq_true.mpr
    refine ⟨range, hmem, decide_eq_true ⟨by omega, ?_⟩⟩
    rw [wrap, Nat.mod_eq_of_lt hfit]
  refine ⟨hsel, ?_⟩
  rw [hone, hsel]
  rfl

/-- Witness for C20: with the sample tables the addresses 0x1000 and 0x1040 (one past
the first range) select the unit at offset 0 once, 0x2100 selects the unit at 0x80,
and 0x1041 selects nothing. -/
theorem units_for_ranges_witness :
    (unitsForRanges sampleInfo 0x1000 sampleInfo.ranges).map (fun u => u.offset) = [0]
    ∧ (unitsForRanges sampleInfo 0x1040 sampleInfo.ranges).map (fun u => u.offset) = [0]
    ∧ (unitsForRanges sampleInfo 0x2100 sampleInfo.ranges).map (fun u => u.offset) = [0x80]
    ∧ (unitsForRanges sampleInfo 0x1041 sampleInfo.ranges).map (fun u => u.offset) = []
    ∧ rangeSetSelects (0x1000 + 0x40) ⟨0, [⟨0x1000, 0x40⟩, ⟨0x3000, 0x10⟩]⟩ = true :=
  ⟨by decide, by decide, by decide, by decide,
    ((units_for_ranges sampleInfo 0).2.2 ⟨0, [⟨0x1000, 0x40⟩, ⟨0x3000, 0x10⟩]⟩ ⟨0x1000, 0x40⟩
      (List.mem_cons_self _ _) (by norm_num)).1⟩

/-! ## First frame versus signal trampoline -/

/-- C17 (amended): in the i386 build, when the unwind step of a non-initial frame
throws and the frame's object-relative PC is the value of `__restore` or of
`__restore_rt`, and the signal ucontext can be read (at `sp+4` for `__restore`,
which is tested first, else at `*(sp+8)+20`), the next frame is synthesised from it.
On the initial frame trampoline recovery is not attempted: the handler depends on
target memory alone, it continues with the return address popped from the stack when
a full word can be read at the stack pointer, and rethrows otherwise. -/
theorem trampoline_after_first_frame (b : Build) (p : Process) (f : StackFrame)
    (hb : b.arch = .i386) (hthrow : p.unwindStep f = .threw) :
    (∀ (obj : ElfObject) (reloc addr : Nat) (regs : List Byte),
      p.findObject b f.ip 0 = (some obj, reloc) →
      (((∃ s, obj.findSymbolByName "__restore" = some s ∧ wsub 32 f.ip reloc = s.st_value)
          ∧ addr = (f.getReg b.SPREG + 4) % 2 ^ 32)
        ∨ ((∀ s, obj.findSymbolByName "__restore" = some s → wsub 32 f.ip reloc ≠ s.st_value)
          ∧ (∃ s, obj.findSymbolByName "__restore_rt" = some s
              ∧ wsub 32 f.ip reloc = s.st_value)
          ∧ ∃ w, p.io.readObj ((f.getReg b.SPREG + 8) % 2 ^ 32) 4 = some w
              ∧ addr = (leValue w + 20) % 2 ^ 32)) →
      p.io.readObj addr (4 * NGREG) = some regs →
      ∃ g : StackFrame,
        catchHandler b p false f = .continue_ g
        ∧ nextFrame b p false f = some g
        ∧ g.ip = greg regs REG_EIP
        ∧ (∀ d s, (d, s) ∈ gregmap → g.getReg d = greg regs s))
    ∧ (∀ q : Process, q.io = p.io → catchHandler b q true f = catchHandler b p true f)
    ∧ (∀ bs : List Byte, p.io.read (f.getReg b.SPREG) 4 = some bs → bs.length = 4 →
        catchHandler b p true f
          = .continue_ (({ f with ip := leValue bs } : StackFrame).setReg b.SPREG
              ((f.getReg b.SPREG + 4) % 2 ^ 32))
        ∧ nextFrame b p true f
          = some (({ f with ip := leValue bs } : StackFrame).setReg b.SPREG
              ((f.getReg b.SPREG + 4) % 2 ^ 32)))
    ∧ (∀ bs : List Byte, p.io.read (f.getReg b.SPREG) 4 = some bs → bs.length ≠ 4 →
        catchHandler b p true f = .rethrow)
    ∧ (p.io.read (f.getReg b.SPREG) 4 = none → catchHandler b p true f = .rethrow) := by
  have hbytes : b.arch.addrBytes = 4 := by rw [hb]; rfl
  have hbits : b.arch.bits = 32 := by rw [hb]; rfl
  refine ⟨?_, ?_, ?_, ?_, ?_⟩
  · intro obj reloc addr regs hobj haddr hregs
    have haddr2 :
        (symbolAt obj "__restore" (wsub 32 f.ip reloc) = true
          ∧ addr = wrap 32 (f.getReg b.SPREG + 4))
        ∨ (symbolAt obj "__restore" (wsub 32 f.ip reloc) = false
          ∧ symbolAt obj "__restore_rt" (wsub 32 f.ip reloc) = true
          ∧ ∃ w, p.io.readObj (wrap 32 (f.getReg b.SPREG + 8)) 4 = some w
              ∧ addr = wrap 32 (leValue w + 20)) := by
      rcases haddr with ⟨h1, h2⟩ | ⟨h1, h2, h3⟩
      · exact Or.inl ⟨(symbolAt_true_iff _ _ _).mpr h1, h2⟩
      · exact Or.inr ⟨(symbolAt_false_iff _ _ _).mpr h1, (symbolAt_true_iff _ _ _).mpr h2, h3⟩
    have ht := trampoline_synthesised b p f obj reloc addr regs hobj haddr2 hregs
    have hh : catchHandler b p false f = .continue_
        { gregmap.foldl (fun f reg => f.setReg reg.1 (greg regs reg.2)) f with
          ip := greg regs REG_EIP } := by
      simp only [catchHandler, hb, ht, Bool.false_eq_true, if_false]
    obtain ⟨hin, _, _, _, _⟩ := gregmap_regs f regs
    refine ⟨_, hh, ?_, rfl, hin⟩
    simp only [nextFrame, hthrow, hh]
  · intro q hq
    simp only [catchHandler, hb, if_true, popReturnAddress, hq]
  · intro bs hread hlen
    have hfull := catchHandler_first_full b p f bs (Or.inr hb)
      (by rw [hbytes]; exact hread) (by rw [hbytes]; exact hlen)
    rw [hbytes, hbits] at hfull
    refine ⟨hfull, ?_⟩
    simp only [nextFrame, hthrow, hfull]
    rfl
  · intro bs hread hlen
    have h4 : Arch.i386.addrBytes = 4 := rfl
    simp only [catchHandler, hb, if_true, popReturnAddress, h4, hread, hlen, if_false]
  · intro hread
    have h4 : Arch.i386.addrBytes = 4 := rfl
    simp only [catchHandler, hb, if_true, popReturnAddress, h4, hread]

/-- Witness for C17 (amended): in the sample signal process the non-initial frame at
`__restore_rt` is followed by the frame synthesised from the ucontext (PC 0xbb). -/
theorem trampoline_after_first_frame_witness :
    (signalProcess none (some 0x1500)).unwindStep
        { startFrame i386Build (regsWith i386Build 0x5000 0x8000) with ip := 0x1500 } = .threw
    ∧ ∃ g : StackFrame,
        nextFrame i386Build (signalProcess none (some 0x1500)) false
          { startFrame i386Build (regsWith i386Build 0x5000 0x8000) with ip := 0x1500 } = some g
        ∧ g.ip = 0xbb := by
  obtain ⟨g, _, hn, hip, _⟩ := (trampoline_after_first_frame i386Build
    (signalProcess none (some 0x1500))
    { startFrame i386Build (regsWith i386Build 0x5000 0x8000) with ip := 0x1500 }
    rfl rfl).1
    (libcObject none (some 0x1500)) 0 0x8100
    ((List.range 76).map (fun i => signalByte (0x8100 + i)))
    rfl
    (Or.inr ⟨(fun s h => by cases h), ⟨⟨0x1500, 0⟩, rfl, by decide⟩,
      ⟨[0xec, 0x80, 0, 0], rfl, by decide⟩⟩)
    rfl
  exact ⟨rfl, g, hn, hip.trans (by decide)⟩

/-- Counterexample to C17 as stated: in the i386 build the initial frame at 0x1500, the
value of `__restore_rt`, fails to unwind and the ucontext at `*(sp+8)+20 = 0x8100` is
readable with 0xbb in its `REG_EIP` slot; yet the second frame is the one popped from
the stack: its PC is the word 0 at `sp` and its stack pointer is `sp + 4`. -/
theorem first_frame_pops_at_trampoline :
    (startFrame i386Build (regsWith i386Build 0x1500 0x8000)).ip = 0x1500
    ∧ (signalProcess none (some 0x1500)).unwindStep
        (startFrame i386Build (regsWith i386Build 0x1500 0x8000)) = .threw
    ∧ (signalProcess none (some 0x1500)).findObject i386Build 0x1500 0
        = (some (libcObject none (some 0x1500)), 0)
    ∧ (libcObject none (some 0x1500)).findSymbolByName "__restore_rt" = some ⟨0x1500, 0⟩
    ∧ (signalProcess none (some 0x1500)).io.readObj 0x8100 (4 * NGREG)
        = some ((List.range 76).map (fun i => signalByte (0x8100 + i)))
    ∧ greg ((List.range 76).map (fun i => signalByte (0x8100 + i))) REG_EIP = 0xbb
    ∧ ∃ g : StackFrame,
        frameAt i386Build (signalProcess none (some 0x1500))
          (regsWith i386Build 0x1500 0x8000) 1 = some g
        ∧ (ThreadStack.unwind i386Build (signalProcess none (some 0x1500))
            (regsWith i386Build 0x1500 0x8000) []).stack[1]? = some g
        ∧ g.ip = 0 ∧ g.getReg 4 = 0x8004
        ∧ g.ip ≠ greg ((List.range 76).map (fun i => signalByte (0x8100 + i))) REG_EIP :=
  ⟨rfl, rfl, rfl, rfl, rfl, by decide, _, rfl, rfl, by decide, by decide, by decide⟩

/-! ## Properties of the symbol lookup -/

theorem rfind_eq_none (c : Char) : ∀ l : List Char, rfind c l = none ↔ c ∉ l := by
  intro l
  induction l with
  | nil => simp [rfind]
  | cons x xs ih =>
    unfold rfind
    cases h : rfind c xs with
    | some i =>
      have hmem : c ∈ xs := by
        by_contra hc
        rw [ih.mpr hc] at h
        cases h
      simp [hmem]
    | none =>
      have hnot : c ∉ xs := ih.mp h
      by_cases hx : x = c
      · simp [hx]
      · have hx2 : ¬ c = x := fun e => hx e.symm
        simp [hx, hx2, hnot]

theorem rfind_drop (c : Char) : ∀ (l : List Char) (p : Nat), rfind c l = some p →
    l.drop (p + 1) = afterLast c l := by
  intro l
  induction l with
  | nil => intro p h; cases h
  | cons x xs ih =>
    intro p h
    unfold rfind at h
    cases hr : rfind c xs with
    | some i =>
      rw [hr] at h
      simp only [Option.some.injEq] at h
      subst h
      have hmem : c ∈ xs := by
        by_contra hc
        rw [(rfind_eq_none c xs).mpr hc] at hr
        cases hr
      simp only [afterLast, hmem, if_true, List.drop_succ_cons]
      exact ih i hr
    | none =>
      rw [hr] at h
      have hnot : c ∉ xs := (rfind_eq_none c xs).mp hr
      by_cases hx : x = c
      · rw [if_pos hx] at h
        simp only [Option.some.injEq] at h
        subst h
        simp [afterLast, hnot, hx]
      · rw [if_neg hx] at h; cases h

theorem afterLast_of_not_mem (c : Char) : ∀ l : List Char, c ∉ l → afterLast c l = l := by
  intro l h
  cases l with
  | nil => rfl
  | cons x xs =>
    simp only [List.mem_cons, not_or] at h
    have hx : ¬ x = c := fun e => h.1 e.symm
    simp [afterLast, h.2, hx]

theorem objectNameMatches_iff (objName : String) (loaded : LoadedObject) :
    objectNameMatches objName loaded
      = decide (loaded.object.name = objName ∨ basename loaded.object.name = objName) := by
  have hbase : (match rfind '/' loaded.object.name.data with
      | some p => String.mk (loaded.object.name.data.drop (p + 1))
      | none => loaded.object.name) = basename loaded.object.name := by
    unfold basename
    cases hr : rfind '/' loaded.object.name.data with
    | some p => simp only [rfind_drop '/' _ p hr]
    | none =>
      simp only [afterLast_of_not_mem '/' _ ((rfind_eq_none '/' _).mp hr)]
  unfold objectNameMatches
  simp only [hbase]
  by_cases h1 : loaded.object.name = objName
  · simp [h1]
  · by_cases h2 : basename loaded.object.name = objName
    · simp [h1, h2]
    · simp [h1, h2]

theorem findSymbolIn_none (bits : Nat) (symbolName : String) :
    ∀ objects : List LoadedObject,
      findSymbolIn bits none symbolName objects
        = objects.findSome? (fun lo =>
            (lo.object.findSymbolByName symbolName).map
              (fun sym => wrap bits (sym.st_value + lo.loadAddr))) := by
  intro objects
  induction objects with
  | nil => rfl
  | cons lo rest ih =>
    unfold findSymbolIn
    rw [List.findSome?_cons]
    cases hs : lo.object.findSymbolByName symbolName with
    | some sym => simp
    | none => simp [ih]

theorem findSymbolIn_some (bits : Nat) (name symbolName : String) :
    ∀ objects : List LoadedObject,
      findSymbolIn bits (some name) symbolName objects
        = match objects.find?
            (fun lo => decide (lo.object.name = name ∨ basename lo.object.name = name)) with
          | some lo =>
            (lo.object.findSymbolByName symbolName).map
              (fun sym => wrap bits (sym.st_value + lo.loadAddr))
          | none => none := by
  intro objects
  induction objects with
  | nil => rfl
  | cons lo rest ih =>
    unfold findSymbolIn
    rw [List.find?_cons]
    have hm := objectNameMatches_iff name lo
    simp only [Option.isSome_some, Option.getD_some, true_and, if_true]
    rw [hm]
    cases hd : decide (lo.object.name = name ∨ basename lo.object.name = name) with
    | true =>
      simp only [Bool.true_eq_false, if_false]
      cases hs : lo.object.findSymbolByName symbolName with
      | some sym => rfl
      | none => rfl
    | false =>
      simp only [if_true]
      exact ih

/-- C19: `Process::findSymbolByName` equals the reference definition. For a static
process or a null object name it returns `st_value + loadAddr` (an `Elf::Addr`) for the
first object in load order that defines the symbol, and fails exactly when none
does. Otherwise it looks only at the first object in load order whose printed path or
basename equals the object name: it returns `st_value + loadAddr` if that object
defines the symbol and fails if it does not, or if no object matches. -/
theorem findSymbolByName_eq_ref (b : Build) (p : Process) (isStatic : Bool)
    (objName : Option String) (symbolName : String) :
    p.findSymbolByName b isStatic objName symbolName
      = findSymbolByNameRef b.arch.bits p.objects isStatic objName symbolName
    ∧ ((isStatic = true ∨ objName = none) →
        (p.findSymbolByName b isStatic objName symbolName = none
          ↔ ∀ lo ∈ p.objects, lo.object.findSymbolByName symbolName = none))
    ∧ (∀ name, isStatic = false → objName = some name →
        (∀ lo ∈ p.objects, ¬ (lo.object.name = name ∨ basename lo.object.name = name)) →
        p.findSymbolByName b isStatic objName symbolName = none)
    ∧ (∀ name pre lo post, isStatic = false → objName = some name →
        p.objects = pre ++ lo :: post →
        (∀ x ∈ pre, ¬ (x.object.name = name ∨ basename x.object.name = name)) →
        (lo.object.name = name ∨ basename lo.object.name = name) →
        p.findSymbolByName b isStatic objName symbolName
          = (lo.object.findSymbolByName symbolName).map
              (fun sym => wrap b.arch.bits (sym.st_value + lo.loadAddr))) := by
  have href : p.findSymbolByName b isStatic objName symbolName
      = findSymbolByNameRef b.arch.bits p.objects isStatic objName symbolName := by
    unfold Process.findSymbolByName findSymbolByNameRef
    cases isStatic with
    | true =>
      simp only [if_true]
      rw [findSymbolIn_none]
    | false =>
      cases objName with
      | none =>
        simp only [Bool.false_eq_true, if_false]
        rw [findSymbolIn_none]
      | some name =>
        simp only [Bool.false_eq_true, if_false]
        rw [findSymbolIn_some]
  have hnamed : ∀ name, isStatic = false → objName = some name →
      p.findSymbolByName b isStatic objName symbolName
        = match p.objects.find?
            (fun lo => decide (lo.object.name = name ∨ basename lo.object.name = name)) with
          | some lo =>
            (lo.object.findSymbolByName symbolName).map
              (fun sym => wrap b.arch.bits (sym.st_value + lo.loadAddr))
          | none => none := by
    intro name hs hn
    subst hs hn
    rw [href]
    rfl
  refine ⟨href, ?_, ?_, ?_⟩
  · intro hcase
    have hany : p.findSymbolByName b isStatic objName symbolName
        = p.objects.findSome? (fun lo =>
            (lo.object.findSymbolByName symbolName).map
              (fun sym => wrap b.arch.bits (sym.st_value + lo.loadAddr))) := by
      rw [href]
      unfold findSymbolByNameRef
      rcases hcase with h | h
      · subst h; rfl
      · subst h
        cases isStatic <;> rfl
    rw [hany, List.findSome?_eq_none_iff]
    constructor
    · intro h lo hlo
      have := h lo hlo
      simpa using this
    · intro h lo hlo
      simp [h lo hlo]
  · intro name hs hn hall
    rw [hnamed name hs hn]
    have hf : p.objects.find?
        (fun lo => decide (lo.object.name = name ∨ basename lo.object.name = name)) = none := by
      apply List.find?_eq_none.mpr
      intro lo hlo
      simpa using hall lo hlo
    rw [hf]
  · intro name pre lo post hs hn hsplit hpre hlo
    rw [hnamed name hs hn]
    have hf : p.objects.find?
        (fun lo => decide (lo.object.name = name ∨ basename lo.object.name = name))
          = some lo := by
      rw [hsplit]
      apply List.find?_eq_some.mpr
      refine ⟨by simpa using hlo, pre, post, rfl, ?_⟩
      intro x hx
      simpa using hpre x hx
    rw [hf]

/-- Witness for C19: in the sample process `sym` resolves to 0x20030 without an
object name; asked for `libc.so.6` the lookup stops at the first object of that
basename, which does not define `sym`, and fails. -/
theorem findSymbolByName_eq_ref_witness :
    symbolProcess.findSymbolByName amd64Build false none "sym" = some 0x20030
    ∧ symbolProcess.findSymbolByName amd64Build false (some "libc.so.6") "sym" = none
    ∧ symbolProcess.findSymbolByName amd64Build true (some "libc.so.6") "sym" = some 0x20030
    ∧ symbolProcess.findSymbolByName amd64Build false (some "/opt/lib/libc.so.6") "sym"
        = some 0x20030
    ∧ symbolProcess.findSymbolByName amd64Build false (some "libc.so.6") "sym"
        = findSymbolByNameRef 64 symbolProcess.objects false (some "libc.so.6") "sym" :=
  ⟨by decide, by decide, by decide, by decide,
    (findSymbolByName_eq_ref amd64Build symbolProcess false (some "libc.so.6") "sym").1⟩

/-! ## Evaluation of `loadSharedObjects` -/

/-- C18, evaluation at the failing input: with no VDSO loaded (`vdsoBase` still 0)
and a first link-map entry with `l_addr` 0, `loadSharedObjects` returns having added
the shared library only: the first entry is skipped by the VDSO test and the
executable is not in the object list. With a VDSO loaded elsewhere the same link map
yields the executable at load address 0, then the library. -/
theorem vdso_test_skips_executable :
    (sampleLoader 0).vdsoBase = 0
    ∧ (sampleLoader 0).linkMapAt 0x1000 = some ⟨0, 0, 0x2000⟩
    ∧ wsub amd64Build.arch.bits (sampleLoader 0).entry (sampleLoader 0).e_entry = 0
    ∧ (∃ objects, loadSharedObjects amd64Build (sampleLoader 0) 8 [] = .returned objects)
    ∧ (loadSharedObjects amd64Build (sampleLoader 0) 8 []).objects.map
        (fun lo => (lo.loadAddr, lo.object.name)) = [(0x7f0000, "/lib/libc.so.6")]
    ∧ (loadSharedObjects amd64Build (sampleLoader 0x7ffff000) 8 []).objects.map
        (fun lo => (lo.loadAddr, lo.object.name))
          = [(0, "/bin/app"), (0x7f0000, "/lib/libc.so.6")] := by
  refine ⟨rfl, rfl, by decide, ⟨_, rfl⟩, by decide, by decide⟩

end Pstack
